import Mathlib

/-!
Verification development for the `fio` package: a sectioned key/value store
(`SettingsINI`, an INI-style file format) and a delimited table store
(`SpreadsheetDelim`, a CSV-style file format).

The Go source is embedded shallowly:

* Go strings are Lean `String`s; Go's byte-length `len` is `goLen` (UTF-8 size).
* Go maps (`map[string]string`, `map[string]*SettingsINIHeader`) are association
  lists with first-match lookup and replace-or-append insertion; iteration order
  is the list order (one fixed realization of Go's unspecified map order).
* The file system is passed explicitly: `Load` takes an `Option String` holding
  the contents of the opened file (`none` models a failure to open), and `Save`
  returns the filename/content pair it would write (`none` when it errors before
  opening).
* The `ReadBufferedLine` collaborator (Common.go) re-assembles full logical
  lines regardless of buffer size; its effect on a whole file is `goLines`,
  which mirrors `bufio.ReadLine`: split on `'\n'`, drop one `'\r'` immediately
  preceding each `'\n'`, and a final extra empty read when the file does not
  end in a newline (the `eof` iteration of the Go loop).
* A Go runtime panic (negative index / slice bound) is modelled as `none` in an
  `Option` result.
-/

namespace Fio

/-- Whitespace per Go `unicode.IsSpace` (the set used by `strings.TrimSpace`):
`'\t'`, `'\n'`, `'\v'`, `'\f'`, `'\r'`, `' '`, U+0085, U+00A0, and the Unicode
White_Space code points above Latin-1. -/
def goIsSpace (c : Char) : Bool :=
  c == ' ' || c == '\t' || c == '\n' || c.toNat == 11 || c.toNat == 12 || c == '\r' ||
  c.toNat == 0x85 || c.toNat == 0xA0 || c.toNat == 0x1680 ||
  (0x2000 ≤ c.toNat && c.toNat ≤ 0x200A) || c.toNat == 0x2028 || c.toNat == 0x2029 ||
  c.toNat == 0x202F || c.toNat == 0x205F || c.toNat == 0x3000

/-- Drop leading Go whitespace. -/
def goTrimLeft (l : List Char) : List Char := l.dropWhile goIsSpace

/-- Drop trailing Go whitespace (the trailing maximal run of space characters). -/
def goTrimRight (l : List Char) : List Char :=
  match l with
  | [] => []
  | c :: cs =>
    match goTrimRight cs with
    | [] => if goIsSpace c then [] else [c]
    | r :: rs => c :: r :: rs

/-- `strings.TrimSpace` on a character list. -/
def goTrimList (l : List Char) : List Char := goTrimRight (goTrimLeft l)

/-- Go `strings.TrimSpace`. -/
def goTrim (s : String) : String := ⟨goTrimList s.data⟩

/-- UTF-8 byte size of one character (Go's encoding length for a rune). -/
def charSize (c : Char) : Nat :=
  if c.toNat ≤ 0x7F then 1 else if c.toNat ≤ 0x7FF then 2
  else if c.toNat ≤ 0xFFFF then 3 else 4

/-- Go `len` on a string: its UTF-8 byte length. -/
def goLen (s : String) : Nat := (s.data.map charSize).sum

/-- Split a character list at every `'\n'` (the pieces do not contain the
newline). Mirrors repeated `bufio.ReadSlice('\n')`. -/
def splitNL : List Char → List (List Char)
  | [] => [[]]
  | x :: xs =>
    if x = '\n' then [] :: splitNL xs
    else
      match splitNL xs with
      | [] => [[x]]
      | r :: rs => (x :: r) :: rs

/-- Drop a single trailing `'\r'`: `bufio.ReadLine` removes one `'\r'`
immediately preceding the `'\n'` terminator. -/
def dropCR (l : List Char) : List Char := if l.getLast? = some '\r' then l.dropLast else l

/-- Apply `dropCR` to every piece except the last (only pieces that were
terminated by `'\n'` get their `'\r'` stripped). -/
def initLastCR : List (List Char) → List (List Char)
  | [] => []
  | [x] => [x]
  | x :: xs => dropCR x :: initLastCR xs

/-- The sequence of lines `ReadBufferedLine` yields on a file with the given
contents, in order, including the final read of the `eof` iteration. -/
def goLines (s : String) : List String :=
  let core := initLastCR (splitNL s.data)
  let l := if s.data ≠ [] ∧ s.data.getLast? ≠ some '\n' then core ++ [[]] else core
  l.map (fun cs => ⟨cs⟩)

/-- Index of the first `'='`, as `strings.IndexByte(line, '=')` (an `'='` byte
can only occur as a full ASCII character, so byte and character occurrences
coincide; the returned index is used only to slice the line at that point). -/
def idxEq : List Char → Option Nat
  | [] => none
  | c :: cs => if c = '=' then some 0 else (idxEq cs).map (fun n => n + 1)

/-- First-match lookup in an association list (a Go map read `m[k]`). -/
def mapFind {α : Type} (m : List (String × α)) (k : String) : Option α :=
  match m with
  | [] => none
  | (k', v) :: rest => if k' = k then some v else mapFind rest k

/-- Go's `_, ok := m[k]`. -/
def mapMem {α : Type} (m : List (String × α)) (k : String) : Bool :=
  (mapFind m k).isSome

/-- A Go map write `m[k] = v`: replace the first binding of `k`, or append a
new binding. -/
def mapInsert {α : Type} (m : List (String × α)) (k : String) (v : α) : List (String × α) :=
  match m with
  | [] => [(k, v)]
  | (k', v') :: rest => if k' = k then (k, v) :: rest else (k', v') :: mapInsert rest k v

/-- `ErrorType` from Common (Error.go section of the source). -/
inductive ErrorType where
  | Parsing
  | InvalidArgument
  | NotFound
  | Exists
  | Saving
  | Loading
  deriving DecidableEq, Repr

/-- `Error` struct: kind, source component, message. -/
structure Error where
  t : ErrorType
  Source : String
  Message : String
  deriving DecidableEq, Repr

/-- Equality of `Except` results is decidable componentwise (Lean core derives no
such instance). -/
instance {e a : Type} [DecidableEq e] [DecidableEq a] : DecidableEq (Except e a) :=
  fun x y =>
    match x, y with
    | Except.error u, Except.error v =>
      if h : u = v then isTrue (by rw [h]) else isFalse (fun hc => h (Except.error.inj hc))
    | Except.error _, Except.ok _ => isFalse (fun hc => Except.noConfusion hc)
    | Except.ok _, Except.error _ => isFalse (fun hc => Except.noConfusion hc)
    | Except.ok u, Except.ok v =>
      if h : u = v then isTrue (by rw [h]) else isFalse (fun hc => h (Except.ok.inj hc))

/-- The values of one INI header: `SettingsINIHeader.Values`. -/
abbrev Pairs := List (String × String)

/-- `SettingsINI`: buffer size, remembered filename, header map. -/
structure SettingsINI where
  buffer : Int
  Filename : String
  Headers : List (String × Pairs)
  deriving DecidableEq, Repr

/-- `NewSettingsINI`. -/
def NewSettingsINI (buffer : Int) : SettingsINI := ⟨buffer, "", []⟩

/-- `m[k].Values[n] = v` through the `currentHeader` pointer: update the pairs
of the binding of `k` in place. -/
def mapAdjust (m : List (String × Pairs)) (k n v : String) : List (String × Pairs) :=
  match m with
  | [] => []
  | (k', vs) :: rest =>
    if k' = k then (k', mapInsert vs n v) :: rest else (k', vs) :: mapAdjust rest k n v

/-- One iteration of the `SettingsINI.Load` parse loop on the line just read
(state: header map and the name of the header `currentHeader` points to). -/
def processINILine (headers : List (String × Pairs)) (current : Option String) (raw : String) :
    Except Error (List (String × Pairs) × Option String) :=
  let line := goTrim raw
  if goLen line = 0 then Except.ok (headers, current)
  else if 2 ≤ goLen line then
    if line.data.take 2 = ['/', '/'] then Except.ok (headers, current)
    else if line.data.head? = some '[' then
      if line.data.getLast? = some ']' then
        let headerName : String := ⟨(line.data.drop 1).dropLast⟩
        if goLen headerName = 0 then
          Except.error ⟨ErrorType.Parsing, "SettingsINI", "No header name specified between brackets"⟩
        else if mapMem headers headerName then
          Except.error ⟨ErrorType.Parsing, "SettingsINI", "Header name is specified twice"⟩
        else Except.ok (mapInsert headers headerName [], some headerName)
      else Except.error ⟨ErrorType.Parsing, "SettingsINI", "Invalid header syntax encountered"⟩
    else
      match idxEq line.data with
      | none => Except.error ⟨ErrorType.Parsing, "SettingsINI", "Expected to find an equal-character"⟩
      | some i =>
        let name := goTrim ⟨line.data.take i⟩
        let value := goTrim ⟨line.data.drop (i + 1)⟩
        if goLen name = 0 then
          Except.error ⟨ErrorType.Parsing, "SettingsINI", "Value pair encountered without name"⟩
        else if goLen value = 0 then
          Except.error ⟨ErrorType.Parsing, "SettingsINI", "Value pair encountered without value"⟩
        else
          match current with
          | none => Except.ok (mapAdjust (mapInsert headers "" []) "" name value, some "")
          | some c => Except.ok (mapAdjust headers c name value, some c)
  else Except.ok (headers, current)

/-- The whole `SettingsINI.Load` parse loop. On an error the in-place
mutations of the previous iterations persist: the state at the failing line is
returned together with the error. -/
def parseINI : List String → List (String × Pairs) → Option String →
    List (String × Pairs) × Option Error
  | [], headers, _ => (headers, none)
  | l :: ls, headers, current =>
    match processINILine headers current l with
    | Except.error e => (headers, some e)
    | Except.ok (hs, cur) => parseINI ls hs cur

/-- `SettingsINI.Load`. `fileContent` is the contents of the file the resolved
filename denotes (`none`: `os.Open` fails). Filename resolution and the
`si.Filename` update happen before the open, the store is cleared only after a
successful open, and a parse error leaves the partially built map in place. -/
def SettingsINI.Load (si : SettingsINI) (filename : String) (fileContent : Option String) :
    SettingsINI × Option Error :=
  if goLen filename = 0 then
    if goLen si.Filename = 0 then
      (si, some ⟨ErrorType.InvalidArgument, "SettingsINI", "Internal and argument filename are empty"⟩)
    else
      match fileContent with
      | none => (si, some ⟨ErrorType.Loading, "SettingsINI", "Failed to open the file"⟩)
      | some content =>
        let r := parseINI (goLines content) [] none
        ({ si with Headers := r.1 }, r.2)
  else
    let si' := { si with Filename := filename }
    match fileContent with
    | none => (si', some ⟨ErrorType.Loading, "SettingsINI", "Failed to open the file"⟩)
    | some content =>
      let r := parseINI (goLines content) [] none
      ({ si' with Headers := r.1 }, r.2)

/-- One serialized `key = value` line (with its newline), as `Save` writes it. -/
def pairLine (n v : String) : String := n ++ " = " ++ v ++ "\n"

/-- The serialized lines of one header's value map, in iteration order. -/
def pairsText (vs : Pairs) : String := String.join (vs.map (fun q => pairLine q.1 q.2))

/-- Everything `SettingsINI.Save` writes: the unnamed header's pairs first,
then each named header as `[name]` followed by its pairs. -/
def saveStringINI (si : SettingsINI) : String :=
  (match mapFind si.Headers "" with
   | none => ""
   | some vs => pairsText vs) ++
  String.join ((si.Headers.filter (fun p => p.1 ≠ "")).map
    (fun p => "[" ++ p.1 ++ "]\n" ++ pairsText p.2))

/-- `SettingsINI.Save`: returns the store (unchanged: `Save` never updates
`si.Filename`), the `(filename, contents)` pair written, and the error. -/
def SettingsINI.Save (si : SettingsINI) (filename : String) :
    SettingsINI × Option (String × String) × Option Error :=
  if goLen filename = 0 then
    if goLen si.Filename = 0 then
      (si, none, some ⟨ErrorType.InvalidArgument, "SettingsINI", "Internal and argument filenames are empty"⟩)
    else (si, some (si.Filename, saveStringINI si), none)
  else (si, some (filename, saveStringINI si), none)

/-- `SettingsINI.HeaderExists`. -/
def SettingsINI.HeaderExists (si : SettingsINI) (header : String) : Bool :=
  mapMem si.Headers header

/-- `SettingsINI.ValueExists`. -/
def SettingsINI.ValueExists (si : SettingsINI) (header name : String) : Bool :=
  match mapFind si.Headers header with
  | none => false
  | some vs => mapMem vs name

/-- `SettingsINI.Add`. The header is created when absent; adding an existing
value pair fails with `ErrorTypeExists` and changes nothing. -/
def SettingsINI.Add (si : SettingsINI) (header name value : String) :
    SettingsINI × Option Error :=
  match mapFind si.Headers header with
  | none =>
    ({ si with Headers := mapInsert (mapInsert si.Headers header []) header [(name, value)] }, none)
  | some vs =>
    if mapMem vs name then
      (si, some ⟨ErrorType.Exists, "SettingsINI", "Value pair already exists in the specified header"⟩)
    else ({ si with Headers := mapInsert si.Headers header (mapInsert vs name value) }, none)

/-- `SettingsINI.Set`: fails with `ErrorTypeNotFound` when the header or the
value pair is absent, otherwise overwrites. -/
def SettingsINI.Set (si : SettingsINI) (header name value : String) :
    SettingsINI × Option Error :=
  match mapFind si.Headers header with
  | none => (si, some ⟨ErrorType.NotFound, "SettingsINI", "Could not find header while setting value"⟩)
  | some vs =>
    if mapMem vs name then
      ({ si with Headers := mapInsert si.Headers header (mapInsert vs name value) }, none)
    else (si, some ⟨ErrorType.NotFound, "SettingsINI", "Could not find value pair while setting value"⟩)

/-- `SettingsINI.Get`: `("", false)` when the header or the name is absent. -/
def SettingsINI.Get (si : SettingsINI) (header name : String) : String × Bool :=
  match mapFind si.Headers header with
  | none => ("", false)
  | some vs =>
    match mapFind vs name with
    | none => ("", false)
    | some v => (v, true)

/-- `SpreadsheetDelim`: buffer size, remembered filename, delimiter, row-major
jagged table. -/
structure SpreadsheetDelim where
  buffer : Int
  Filename : String
  delimeter : String
  Data : List (List String)
  deriving DecidableEq, Repr

/-- `NewSpreadsheetDelim`. -/
def NewSpreadsheetDelim (buffer : Int) (delimeter : String) : SpreadsheetDelim :=
  ⟨buffer, "", delimeter, []⟩

/-- Go slice read `l[i]` with an `int` index: `none` models the runtime panic
on a negative or too-large index. -/
def goIndex {α : Type} (l : List α) (i : Int) : Option α :=
  if 0 ≤ i then l.get? i.toNat else none

/-- Go slice expression `l[i:]`: `none` models the panic when `i` is negative
or exceeds the length. -/
def goSliceFrom {α : Type} (l : List α) (i : Int) : Option (List α) :=
  if 0 ≤ i ∧ i ≤ (l.length : Int) then some (l.drop i.toNat) else none

/-- Fuel-driven core of Go `strings.Split` for a nonempty separator: cut at
every leftmost non-overlapping occurrence. The fuel only serves structural
recursion; `l.length` fuel always suffices. -/
def splitGo (sep : List Char) : List Char → Nat → List (List Char)
  | l, 0 => [l]
  | [], _ + 1 => [[]]
  | x :: xs, fuel + 1 =>
    if sep.isPrefixOf (x :: xs) then [] :: splitGo sep ((x :: xs).drop sep.length) fuel
    else
      match splitGo sep xs fuel with
      | [] => [[x]]
      | r :: rs => (x :: r) :: rs

/-- Go `strings.Split(s, sep)` on character lists (an empty separator explodes
the string into its runes, yielding `[]` on the empty string). -/
def goSplit (sep l : List Char) : List (List Char) :=
  if sep = [] then l.map (fun c => [c]) else splitGo sep l l.length

/-- Go `strings.Split` on strings. -/
def goSplitStr (sep s : String) : List String :=
  (goSplit sep.data s.data).map (fun cs => ⟨cs⟩)

/-- The `SpreadsheetDelim.Load` read loop: state is the skip counter and the
accumulated `sd.Data` (the loop appends to the table it started with). The
result is `none` on a panic (negative `skipCols` reaching the slice), otherwise
the final table and the error of the iteration that failed, if any. -/
def loadRowsAux (delim : String) (skipCols skipRows : Int) :
    List String → Int → List (List String) → Option (List (List String) × Option Error)
  | [], _, acc => some (acc, none)
  | l :: ls, counter, acc =>
    if counter < skipRows then loadRowsAux delim skipCols skipRows ls (counter + 1) acc
    else if goLen l = 0 then loadRowsAux delim skipCols skipRows ls counter acc
    else
      let newData := goSplitStr delim l
      if newData.length = 0 then
        some (acc, some ⟨ErrorType.Parsing, "SpreadsheetDelim", "Non-empty buffer did not produce delimter split values"⟩)
      else if (newData.length : Int) ≤ skipCols then
        loadRowsAux delim skipCols skipRows ls counter acc
      else
        match goSliceFrom newData skipCols with
        | none => none
        | some cells => loadRowsAux delim skipCols skipRows ls counter (acc ++ [cells])

/-- `SpreadsheetDelim.Load`. `fileContent` as in `SettingsINI.Load`. The rows
parsed from the file are appended to the existing `sd.Data`; nothing clears the
table first. The outer `none` models a panic inside the loop. -/
def SpreadsheetDelim.Load (sd : SpreadsheetDelim) (filename : String) (skipCols skipRows : Int)
    (fileContent : Option String) : Option (SpreadsheetDelim × Option Error) :=
  if goLen filename = 0 then
    if goLen sd.Filename = 0 then
      some (sd, some ⟨ErrorType.InvalidArgument, "SpreadsheetDelim", "No filename specified to load"⟩)
    else
      match fileContent with
      | none => some (sd, some ⟨ErrorType.Loading, "SpreadsheetDelim", "Failed to load file"⟩)
      | some content =>
        match loadRowsAux sd.delimeter skipCols skipRows (goLines content) 0 sd.Data with
        | none => none
        | some r => some ({ sd with Data := r.1 }, r.2)
  else
    let sd' := { sd with Filename := filename }
    match fileContent with
    | none => some (sd', some ⟨ErrorType.Loading, "SpreadsheetDelim", "Failed to load file"⟩)
    | some content =>
      match loadRowsAux sd.delimeter skipCols skipRows (goLines content) 0 sd.Data with
      | none => none
      | some r => some ({ sd' with Data := r.1 }, r.2)

/-- The characters the `SpreadsheetDelim.Save` row loop puts in its buffer:
the first cell, then delimiter-plus-cell for every further cell. -/
def rowChars (delim : List Char) (row : List String) : List Char :=
  match row with
  | [] => []
  | a :: rest => a.data ++ (rest.map (fun x => delim ++ x.data)).flatten

/-- One serialized row (with its newline), as `SpreadsheetDelim.Save` writes
it: cells joined by the delimiter. -/
def rowLine (delim : String) (row : List String) : String :=
  ⟨rowChars delim.data row ++ ['\n']⟩

/-- Everything `SpreadsheetDelim.Save` writes. -/
def saveStringSheet (sd : SpreadsheetDelim) : String :=
  String.join (sd.Data.map (rowLine sd.delimeter))

/-- `SpreadsheetDelim.Save`: like `SettingsINI.Save`, the remembered filename
is never updated by `Save`. -/
def SpreadsheetDelim.Save (sd : SpreadsheetDelim) (filename : String) :
    SpreadsheetDelim × Option (String × String) × Option Error :=
  if goLen filename = 0 then
    if goLen sd.Filename = 0 then
      (sd, none, some ⟨ErrorType.InvalidArgument, "SpreadsheetDelim", "No filename specified to save"⟩)
    else (sd, some (sd.Filename, saveStringSheet sd), none)
  else (sd, some (filename, saveStringSheet sd), none)

/-- `SpreadsheetDelim.Set`: extend with empty rows up to `row`, extend that row
with empty cells up to `col`, then assign. `none` models the index panic on a
negative `row` or `col`. -/
def SpreadsheetDelim.Set (sd : SpreadsheetDelim) (row col : Int) (value : String) :
    Option SpreadsheetDelim :=
  let data := sd.Data ++ List.replicate (row + 1 - (sd.Data.length : Int)).toNat []
  match goIndex data row with
  | none => none
  | some r =>
    let r' := r ++ List.replicate (col + 1 - (r.length : Int)).toNat ""
    match goIndex r' col with
    | none => none
    | some _ => some { sd with Data := data.set row.toNat (r'.set col.toNat value) }

/-- `SpreadsheetDelim.Get`: `("", false)` out of bounds. The bound checks are
`row >= len(sd.Data)` and `col >= len(sd.Data[row])`, so a negative `row` or
`col` passes them and panics on the index (`none`). -/
def SpreadsheetDelim.Get (sd : SpreadsheetDelim) (row col : Int) : Option (String × Bool) :=
  if (sd.Data.length : Int) ≤ row then some ("", false)
  else
    match goIndex sd.Data row with
    | none => none
    | some r =>
      if (r.length : Int) ≤ col then some ("", false)
      else
        match goIndex r col with
        | none => none
        | some v => some (v, true)

/-! ### Derived definitions used by the lemmas and specification theorems -/

/-- The parse loop of `SettingsINI.Load` keeping the full state, for
composition: `Except.error` carries the map as mutated up to the failing
line. -/
def stepMany : List String → List (String × Pairs) → Option String →
    Except (List (String × Pairs) × Error) (List (String × Pairs) × Option String)
  | [], hs, cur => Except.ok (hs, cur)
  | l :: ls, hs, cur =>
    match processINILine hs cur l with
    | Except.error e => Except.error (hs, e)
    | Except.ok s => stepMany ls s.1 s.2

/-- The characters of one `key = value` line as `Save` writes it (without the
newline). -/
def pairLineChars (q : String × String) : List Char :=
  q.1.data ++ (' ' :: '=' :: ' ' :: q.2.data)

/-- The characters of one `[name]` header line (without the newline). -/
def headerLineChars (h : String) : List Char := '[' :: h.data ++ [']']

/-- The lines `SettingsINI.Save` writes, as character lists without their
newlines: the unnamed header's pairs first, then each named header's block. -/
def iniLines (si : SettingsINI) : List (List Char) :=
  (match mapFind si.Headers "" with
   | none => []
   | some vs => vs.map pairLineChars) ++
  ((si.Headers.filter (fun p => p.1 ≠ "")).map
    (fun p => headerLineChars p.1 :: p.2.map pairLineChars)).flatten

/-- A header-name argument that survives serialization: it may not contain a
newline (the parser reads one line at a time). -/
def validHeaderArg (h : String) : Prop := '\n' ∉ h.data

/-- A key that survives serialization through the INI parser: nonempty,
already trimmed, and free of the characters the parser gives meaning to
(newline, `'='`, a leading `'['`, a leading `"//"`). -/
def validKey (k : String) : Prop :=
  k.data ≠ [] ∧ goTrimList k.data = k.data ∧ '\n' ∉ k.data ∧ '=' ∉ k.data ∧
  k.data.head? ≠ some '[' ∧ k.data.take 2 ≠ ['/', '/']

/-- A value that survives serialization through the INI parser: nonempty,
already trimmed, newline-free. -/
def validValue (v : String) : Prop :=
  v.data ≠ [] ∧ goTrimList v.data = v.data ∧ '\n' ∉ v.data

/-- The stores reachable from `NewSettingsINI` by `Add`/`Set` calls whose keys
and values are valid in the sense above. -/
inductive BuiltINI : SettingsINI → Prop where
  | new : ∀ b, BuiltINI (NewSettingsINI b)
  | add : ∀ si h n v, BuiltINI si → validHeaderArg h → validKey n → validValue v →
      BuiltINI (si.Add h n v).1
  | set : ∀ si h n v, BuiltINI si → validValue v → BuiltINI (si.Set h n v).1

/-- Well-formedness invariant of a built store: unique header names, unique
keys per header, and valid names, keys and values throughout. -/
def INIWF (si : SettingsINI) : Prop :=
  (si.Headers.map Prod.fst).Nodup ∧
  ∀ p ∈ si.Headers, validHeaderArg p.1 ∧ (p.2.map Prod.fst).Nodup ∧
    ∀ q ∈ p.2, validKey q.1 ∧ validValue q.2

/-- The header map that reloading a saved store produces: the unnamed section
first (only if it has pairs), then the named sections in order. -/
def reparsedHeaders (si : SettingsINI) : List (String × Pairs) :=
  (match mapFind si.Headers "" with
   | none => []
   | some [] => []
   | some (q :: vs) => [("", q :: vs)]) ++ si.Headers.filter (fun p => p.1 ≠ "")

/-- Fold of Go map writes over a list of pairs. -/
def insertAll (ps : Pairs) (vs : Pairs) : Pairs :=
  vs.foldl (fun a q => mapInsert a q.1 q.2) ps

/-- Fold of in-place updates of header `c` over a list of pairs. -/
def adjustAll (hs : List (String × Pairs)) (c : String) (vs : Pairs) :
    List (String × Pairs) :=
  vs.foldl (fun h q => mapAdjust h c q.1 q.2) hs

/-- A cell that survives serialization with single-character delimiter `c`:
it contains neither the delimiter nor a newline. -/
def cellOK (c : Char) (s : String) : Prop := c ∉ s.data ∧ '\n' ∉ s.data

/-- A row that survives serialization: all cells safe, the serialized line
nonempty (so `Load` does not skip it), and not ending in a carriage return
(which the line reader would strip). -/
def rowOK (c : Char) (row : List String) : Prop :=
  (∀ s ∈ row, cellOK c s) ∧ row ≠ [] ∧ (∀ x, row = [x] → x ≠ "") ∧
  (∀ s, row.getLast? = some s → s.data.getLast? ≠ some '\r')

/-- A table whose `Save` output reloads to the same table: single-character
delimiter, not a line terminator, and every row safe. -/
def SheetRTSafe (sd : SpreadsheetDelim) : Prop :=
  ∃ c : Char, sd.delimeter.data = [c] ∧ c ≠ '\n' ∧ c ≠ '\r' ∧
    ∀ row ∈ sd.Data, rowOK c row

/-- The rows one `SpreadsheetDelim.Load` pass over `content` appends to the
table: drop the first `skipRows` lines, skip empty lines, split each survivor
on the delimiter, discard rows of at most `skipCols` cells, and keep the cells
from index `skipCols` on. -/
def parsedRows (d : String) (sc sr : Int) (content : String) : List (List String) :=
  (((goLines content).drop sr.toNat).filter (fun l => goLen l ≠ 0)).filterMap
    (fun l =>
      if ((goSplitStr d l).length : Int) ≤ sc then none
      else some ((goSplitStr d l).drop sc.toNat))

/-- The per-header part of the parse invariant: every stored key and value is
nonempty and fixed by whitespace trimming. -/
def goodPairs (ps : Pairs) : Prop :=
  ∀ q ∈ ps, goLen q.1 ≠ 0 ∧ goTrim q.1 = q.1 ∧ goLen q.2 ≠ 0 ∧ goTrim q.2 = q.2

/-- The parse invariant on the header map: every named header is nonempty and
every header's pairs are trimmed and nonempty. -/
def goodHeaders (hs : List (String × Pairs)) : Prop :=
  ∀ p ∈ hs, (p.1 ≠ "" → goLen p.1 ≠ 0) ∧ goodPairs p.2

/-! ### Association-list (Go map) lemmas -/

theorem mapFind_eq_none_iff {α : Type} (m : List (String × α)) (k : String) :
    mapFind m k = none ↔ k ∉ m.map Prod.fst := by
  induction m with
  | nil => simp [mapFind]
  | cons p rest ih =>
    obtain ⟨k', v⟩ := p
    by_cases hk : k' = k
    · subst hk
      simp [mapFind]
    · have h1 : mapFind ((k', v) :: rest) k = mapFind rest k := by
        simp [mapFind, hk]
      rw [h1, ih, List.map_cons]
      constructor
      · intro h hmem
        rcases List.mem_cons.mp hmem with h2 | h2
        · exact hk h2.symm
        · exact h h2
      · intro h h2
        exact h (List.mem_cons_of_mem _ h2)

theorem mapFind_mem {α : Type} {m : List (String × α)} {k : String} {v : α}
    (h : mapFind m k = some v) : (k, v) ∈ m := by
  induction m with
  | nil => simp [mapFind] at h
  | cons p rest ih =>
    obtain ⟨k', v'⟩ := p
    by_cases hk : k' = k
    · subst hk
      simp [mapFind] at h
      simp [h]
    · simp [mapFind, hk] at h
      simp [ih h]

theorem mapInsert_of_absent {α : Type} {m : List (String × α)} {k : String} (v : α)
    (h : mapFind m k = none) : mapInsert m k v = m ++ [(k, v)] := by
  induction m with
  | nil => simp [mapInsert]
  | cons p rest ih =>
    obtain ⟨k', v'⟩ := p
    by_cases hk : k' = k
    · simp [mapFind, hk] at h
    · simp [mapFind, hk] at h
      simp [mapInsert, hk, ih h]

theorem mapFind_mapInsert_self {α : Type} (m : List (String × α)) (k : String) (v : α) :
    mapFind (mapInsert m k v) k = some v := by
  induction m with
  | nil => simp [mapInsert, mapFind]
  | cons p rest ih =>
    obtain ⟨k', v'⟩ := p
    by_cases hk : k' = k
    · simp [mapInsert, hk, mapFind]
    · simp [mapInsert, hk, mapFind, ih]

theorem mapFind_mapInsert_ne {α : Type} (m : List (String × α)) {k k' : String} (v : α)
    (h : k' ≠ k) : mapFind (mapInsert m k v) k' = mapFind m k' := by
  induction m with
  | nil =>
    simp [mapInsert, mapFind]
    exact fun heq => (h heq.symm).elim
  | cons p rest ih =>
    obtain ⟨k'', v''⟩ := p
    by_cases hk : k'' = k
    · subst hk
      have : ¬ (k'' = k') := fun heq => h (heq.symm)
      simp [mapInsert, mapFind, this]
    · simp [mapInsert, hk, mapFind, ih]

theorem mapInsert_keys_of_mem {α : Type} {m : List (String × α)} {k : String} (v : α)
    (h : mapFind m k ≠ none) : (mapInsert m k v).map Prod.fst = m.map Prod.fst := by
  induction m with
  | nil => exact absurd rfl h
  | cons p rest ih =>
    obtain ⟨k', v'⟩ := p
    by_cases hk : k' = k
    · simp [mapInsert, hk]
    · have h2 : mapFind rest k ≠ none := by
        intro hn
        apply h
        simp [mapFind, hk, hn]
      simp [mapInsert, hk, ih h2]

theorem mem_mapInsert {α : Type} {m : List (String × α)} {k : String} {v : α} :
    ∀ p ∈ mapInsert m k v, p = (k, v) ∨ p ∈ m := by
  induction m with
  | nil => simp [mapInsert]
  | cons q rest ih =>
    obtain ⟨k', v'⟩ := q
    intro p hp
    by_cases hk : k' = k
    · simp [mapInsert, hk] at hp
      rcases hp with hp | hp
      · exact Or.inl (by simp [hp])
      · exact Or.inr (by simp [hp])
    · simp [mapInsert, hk] at hp
      rcases hp with hp | hp
      · exact Or.inr (by simp [hp])
      · rcases ih p hp with h1 | h1
        · exact Or.inl h1
        · exact Or.inr (by simp [h1])

theorem mapFind_append {α : Type} (a b : List (String × α)) (k : String) :
    mapFind (a ++ b) k =
      match mapFind a k with
      | some v => some v
      | none => mapFind b k := by
  induction a with
  | nil => simp [mapFind]
  | cons p rest ih =>
    obtain ⟨k', v'⟩ := p
    by_cases hk : k' = k <;> simp [mapFind, hk, ih]

theorem mapAdjust_keys (m : List (String × Pairs)) (k n v : String) :
    (mapAdjust m k n v).map Prod.fst = m.map Prod.fst := by
  induction m with
  | nil => simp [mapAdjust]
  | cons p rest ih =>
    obtain ⟨k', vs⟩ := p
    by_cases hk : k' = k <;> simp [mapAdjust, hk, ih]

theorem mem_mapAdjust {m : List (String × Pairs)} {k n v : String} :
    ∀ p ∈ mapAdjust m k n v, p ∈ m ∨ ∃ vs, (k, vs) ∈ m ∧ p = (k, mapInsert vs n v) := by
  induction m with
  | nil => simp [mapAdjust]
  | cons q rest ih =>
    obtain ⟨k', vs'⟩ := q
    intro p hp
    by_cases hk : k' = k
    · subst hk
      simp [mapAdjust] at hp
      rcases hp with hp | hp
      · exact Or.inr ⟨vs', by simp, by simp [hp]⟩
      · exact Or.inl (by simp [hp])
    · simp [mapAdjust, hk] at hp
      rcases hp with hp | hp
      · exact Or.inl (by simp [hp])
      · rcases ih p hp with h1 | ⟨vs, h2, h3⟩
        · exact Or.inl (by simp [h1])
        · exact Or.inr ⟨vs, by simp [h2], h3⟩

theorem mapAdjust_append_absent {m : List (String × Pairs)} {k : String}
    (h : mapFind m k = none) (ps : Pairs) (n v : String) :
    mapAdjust (m ++ [(k, ps)]) k n v = m ++ [(k, mapInsert ps n v)] := by
  induction m with
  | nil => simp [mapAdjust]
  | cons p rest ih =>
    obtain ⟨k', vs'⟩ := p
    by_cases hk : k' = k
    · simp [mapFind, hk] at h
    · simp [mapFind, hk] at h
      simp [mapAdjust, hk, ih h]

theorem mapFind_mapAdjust_ne {m : List (String × Pairs)} {k k' n v : String}
    (h : k' ≠ k) : mapFind (mapAdjust m k n v) k' = mapFind m k' := by
  induction m with
  | nil => simp [mapAdjust]
  | cons p rest ih =>
    obtain ⟨k'', vs⟩ := p
    by_cases hk : k'' = k
    · subst hk
      have hne : ¬ (k'' = k') := fun heq => h heq.symm
      simp [mapAdjust, mapFind, hne]
    · by_cases hk2 : k'' = k'
      · subst hk2
        simp [mapAdjust, hk, mapFind]
      · simp [mapAdjust, hk, mapFind, hk2, ih]

/-! ### Trimming lemmas -/

theorem length_goTrimRight_le (l : List Char) : (goTrimRight l).length ≤ l.length := by
  induction l with
  | nil => simp [goTrimRight]
  | cons c cs ih =>
    rw [goTrimRight]
    rcases h : goTrimRight cs with _ | ⟨r, rs⟩
    · by_cases hc : goIsSpace c <;> simp [hc]
    · rw [h] at ih
      simp at ih ⊢
      omega

theorem length_dropWhile_le (p : Char → Bool) (l : List Char) :
    (l.dropWhile p).length ≤ l.length := by
  induction l with
  | nil => simp
  | cons c cs ih =>
    by_cases hc : p c
    · rw [List.dropWhile_cons_of_pos hc]
      exact le_trans ih (by simp)
    · rw [List.dropWhile_cons_of_neg hc]

theorem goTrimRight_of_getLast? {l : List Char} {c : Char}
    (h : l.getLast? = some c) (hc : goIsSpace c = false) : goTrimRight l = l := by
  induction l with
  | nil => simp at h
  | cons x xs ih =>
    rcases xs with _ | ⟨y, ys⟩
    · simp at h
      subst h
      simp [goTrimRight, hc]
    · rw [List.getLast?_cons_cons] at h
      have := ih h
      rw [goTrimRight, this]

theorem goTrimRight_getLast? {l : List Char} {c : Char}
    (h : goTrimRight l = l) (h2 : l.getLast? = some c) : goIsSpace c = false := by
  induction l with
  | nil => simp at h2
  | cons x xs ih =>
    rcases xs with _ | ⟨y, ys⟩
    · have hxc : x = c := by simpa using h2
      subst hxc
      by_cases hsp : goIsSpace x
      · simp [goTrimRight, hsp] at h
      · simpa using hsp
    · rw [List.getLast?_cons_cons] at h2
      apply ih _ h2
      rw [goTrimRight] at h
      rcases h3 : goTrimRight (y :: ys) with _ | ⟨r, rs⟩
      · rw [h3] at h
        by_cases hx : goIsSpace x <;> simp [hx] at h
      · rw [h3] at h
        simp at h
        rw [h.1, h.2]

theorem goTrimRight_append_space {c : Char} (l : List Char)
    (hc : goIsSpace c = true) : goTrimRight (l ++ [c]) = goTrimRight l := by
  induction l with
  | nil => simp [goTrimRight, hc]
  | cons x xs ih =>
    rw [List.cons_append, goTrimRight, ih, goTrimRight]

theorem goTrimRight_idem (l : List Char) : goTrimRight (goTrimRight l) = goTrimRight l := by
  induction l with
  | nil => rfl
  | cons x xs ih =>
    rw [goTrimRight]
    rcases h : goTrimRight xs with _ | ⟨r, rs⟩
    · by_cases hx : goIsSpace x
      · simp [hx, goTrimRight]
      · simp [hx, goTrimRight]
    · rw [h] at ih
      rw [goTrimRight, ih]

theorem goTrimRight_head? (l : List Char) :
    goTrimRight l = [] ∨ (goTrimRight l).head? = l.head? := by
  induction l with
  | nil => exact Or.inl rfl
  | cons x xs _ =>
    rw [goTrimRight]
    rcases h : goTrimRight xs with _ | ⟨r, rs⟩
    · by_cases hx : goIsSpace x
      · exact Or.inl (by simp [hx])
      · exact Or.inr (by simp [hx])
    · exact Or.inr (by simp)

theorem dropWhile_length_eq {p : Char → Bool} {l : List Char}
    (h : l.length ≤ (l.dropWhile p).length) : l.dropWhile p = l := by
  induction l with
  | nil => simp
  | cons c cs ih =>
    by_cases hc : p c
    · rw [List.dropWhile_cons_of_pos hc] at h ⊢
      have := length_dropWhile_le p cs
      simp at h
      omega
    · rw [List.dropWhile_cons_of_neg hc]

theorem goTrimList_fix_left {l : List Char} (h : goTrimList l = l) :
    l.dropWhile goIsSpace = l := by
  apply dropWhile_length_eq
  calc l.length = (goTrimList l).length := by rw [h]
    _ = (goTrimRight (l.dropWhile goIsSpace)).length := rfl
    _ ≤ (l.dropWhile goIsSpace).length := length_goTrimRight_le _

theorem goTrimList_fix_right {l : List Char} (h : goTrimList l = l) :
    goTrimRight l = l := by
  have h1 := goTrimList_fix_left h
  unfold goTrimList goTrimLeft at h
  rw [h1] at h
  exact h

theorem dropWhile_fix_head {p : Char → Bool} {l : List Char} {c : Char}
    (h : l.dropWhile p = l) (hc : l.head? = some c) : p c = false := by
  rcases l with _ | ⟨x, xs⟩
  · simp at hc
  · have hx : x = c := by simpa using hc
    subst hx
    by_cases hp : p x
    · rw [List.dropWhile_cons_of_pos hp] at h
      have h1 := length_dropWhile_le p xs
      have h2 : (x :: xs).length = (List.dropWhile p xs).length := by rw [← h]
      simp at h2
      omega
    · simpa using hp

theorem head?_dropWhile {p : Char → Bool} {l : List Char} {c : Char}
    (h : (l.dropWhile p).head? = some c) : p c = false := by
  induction l with
  | nil => simp at h
  | cons x xs ih =>
    by_cases hx : p x
    · rw [List.dropWhile_cons_of_pos hx] at h
      exact ih h
    · rw [List.dropWhile_cons_of_neg hx] at h
      have hxc : x = c := by simpa using h
      subst hxc
      simpa using hx

theorem dropWhile_idem (p : Char → Bool) (l : List Char) :
    (l.dropWhile p).dropWhile p = l.dropWhile p := by
  rcases h : l.dropWhile p with _ | ⟨c, cs⟩
  · rfl
  · have hc : p c = false := head?_dropWhile (l := l) (by rw [h]; rfl)
    rw [List.dropWhile_cons_of_neg (by simp [hc])]

theorem goTrimList_of_edges {l : List Char} {c d : Char}
    (hhead : l.head? = some c) (hc : goIsSpace c = false)
    (hlast : l.getLast? = some d) (hd : goIsSpace d = false) : goTrimList l = l := by
  rcases l with _ | ⟨x, xs⟩
  · simp at hhead
  · have hx : x = c := by simpa using hhead
    subst hx
    unfold goTrimList goTrimLeft
    rw [List.dropWhile_cons_of_neg (by simp [hc])]
    exact goTrimRight_of_getLast? hlast hd

theorem goTrimList_idem (l : List Char) : goTrimList (goTrimList l) = goTrimList l := by
  have hd : List.dropWhile goIsSpace (goTrimList l) = goTrimList l := by
    rcases goTrimRight_head? (goTrimLeft l) with h | h
    · show List.dropWhile goIsSpace (goTrimRight (goTrimLeft l)) = goTrimRight (goTrimLeft l)
      rw [h]
      rfl
    · show List.dropWhile goIsSpace (goTrimRight (goTrimLeft l)) = goTrimRight (goTrimLeft l)
      rcases hm : goTrimRight (goTrimLeft l) with _ | ⟨c, cs⟩
      · rfl
      · rw [hm] at h
        have hfix : List.dropWhile goIsSpace (goTrimLeft l) = goTrimLeft l :=
          dropWhile_idem goIsSpace l
        have hc : goIsSpace c = false := by
          apply dropWhile_fix_head hfix
          rw [← h]
          rfl
        rw [List.dropWhile_cons_of_neg (by simp [hc])]
  calc goTrimList (goTrimList l)
      = goTrimRight (List.dropWhile goIsSpace (goTrimList l)) := rfl
    _ = goTrimRight (goTrimList l) := by rw [hd]
    _ = goTrimRight (goTrimRight (goTrimLeft l)) := rfl
    _ = goTrimRight (goTrimLeft l) := goTrimRight_idem _
    _ = goTrimList l := rfl

/-! ### Byte length lemmas -/

theorem charSize_pos (c : Char) : 1 ≤ charSize c := by
  unfold charSize
  split
  · exact le_refl 1
  · split
    · omega
    · split <;> omega

theorem length_le_goLen (s : String) : s.data.length ≤ goLen s := by
  unfold goLen
  induction s.data with
  | nil => simp
  | cons c cs ih =>
    simp only [List.map_cons, List.sum_cons, List.length_cons]
    have := charSize_pos c
    omega

theorem goLen_eq_zero {s : String} : goLen s = 0 ↔ s.data = [] := by
  constructor
  · intro h
    have h1 := length_le_goLen s
    rw [h] at h1
    exact List.length_eq_zero.mp (by omega)
  · intro h
    unfold goLen
    rw [h]
    rfl

theorem goTrim_goTrim (s : String) : goTrim (goTrim s) = goTrim s := by
  unfold goTrim
  exact congrArg _ (goTrimList_idem s.data)

/-! ### Line splitting lemmas -/

theorem splitNL_of_no_nl {l : List Char} (h : '\n' ∉ l) : splitNL l = [l] := by
  induction l with
  | nil => rfl
  | cons c cs ih =>
    rw [List.mem_cons] at h
    push_neg at h
    rw [splitNL, if_neg (fun hc => h.1 hc.symm), ih h.2]

theorem splitNL_append {a : List Char} (b : List Char) (h : '\n' ∉ a) :
    splitNL (a ++ '\n' :: b) = a :: splitNL b := by
  induction a with
  | nil => simp [splitNL]
  | cons c cs ih =>
    rw [List.mem_cons] at h
    push_neg at h
    rw [List.cons_append, splitNL, if_neg (fun hc => h.1 hc.symm), ih h.2]

theorem dropCR_of_ne {l : List Char} (h : l.getLast? ≠ some '\r') : dropCR l = l := by
  unfold dropCR
  rw [if_neg h]

theorem initLastCR_of (ps : List (List Char)) (h : ∀ p ∈ ps, p.getLast? ≠ some '\r') :
    initLastCR ps = ps := by
  induction ps with
  | nil => rfl
  | cons x xs ih =>
    rcases xs with _ | ⟨y, ys⟩
    · rfl
    · show dropCR x :: initLastCR (y :: ys) = x :: y :: ys
      rw [dropCR_of_ne (h x (by simp))]
      rw [ih (fun p hp => h p (List.mem_cons_of_mem _ hp))]

/-! ### String data lemmas -/

theorem foldl_append_data (l : List String) (s : String) :
    (l.foldl (fun a b => a ++ b) s).data = s.data ++ (l.map String.data).flatten := by
  induction l generalizing s with
  | nil => simp
  | cons a rest ih =>
    rw [List.foldl_cons, ih, List.map_cons, List.flatten]
    rw [String.data_append, List.append_assoc]

theorem join_data (l : List String) : (String.join l).data = (l.map String.data).flatten := by
  show (l.foldl (fun a b => a ++ b) "").data = (l.map String.data).flatten
  rw [foldl_append_data]
  rfl

theorem string_eta (s : String) : (⟨s.data⟩ : String) = s := by
  cases s
  rfl

/-! ### `goLines` on serialized output -/

theorem splitNL_join (lines : List (List Char)) (h : ∀ l ∈ lines, '\n' ∉ l) :
    splitNL ((lines.map (fun l => l ++ ['\n'])).flatten) = lines ++ [[]] := by
  induction lines with
  | nil => rfl
  | cons l rest ih =>
    rw [List.map_cons, List.flatten, List.append_assoc, List.singleton_append]
    rw [splitNL_append _ (h l (by simp))]
    rw [ih (fun p hp => h p (List.mem_cons_of_mem _ hp))]
    rfl

theorem join_lines_getLast (lines : List (List Char)) (h : lines ≠ []) :
    ((lines.map (fun l => l ++ ['\n'])).flatten).getLast? = some '\n' := by
  induction lines with
  | nil => exact absurd rfl h
  | cons l rest ih =>
    rcases rest with _ | ⟨r, rs⟩
    · show ((l ++ ['\n']) ++ [].flatten).getLast? = some '\n'
      rw [List.flatten, List.append_nil, List.getLast?_concat]
    · rw [List.map_cons, List.flatten, List.getLast?_append]
      rw [ih (by simp)]
      rfl

theorem goLines_join (lines : List (List Char))
    (h : ∀ l ∈ lines, '\n' ∉ l ∧ l.getLast? ≠ some '\r') :
    goLines ⟨(lines.map (fun l => l ++ ['\n'])).flatten⟩ =
      lines.map (fun cs => (⟨cs⟩ : String)) ++ [""] := by
  unfold goLines
  simp only
  rw [splitNL_join lines (fun l hl => (h l hl).1)]
  rw [initLastCR_of (lines ++ [[]]) (by
    intro p hp
    rcases List.mem_append.mp hp with h1 | h1
    · exact (h p h1).2
    · simp at h1
      simp [h1])]
  rcases hl : lines with _ | ⟨l, rest⟩
  · simp
  · rw [← hl]
    have hlast : ((lines.map (fun l => l ++ ['\n'])).flatten).getLast? = some '\n' :=
      join_lines_getLast lines (by rw [hl]; simp)
    rw [if_neg (by
      intro hcon
      exact hcon.2 hlast)]
    simp

/-! ### The parse loop as a state machine -/

theorem parseINI_eq_stepMany (ls : List String) (hs : List (String × Pairs))
    (cur : Option String) :
    parseINI ls hs cur =
      match stepMany ls hs cur with
      | Except.ok s => (s.1, none)
      | Except.error p => (p.1, some p.2) := by
  induction ls generalizing hs cur with
  | nil => rfl
  | cons l ls ih =>
    rw [parseINI, stepMany]
    rcases h : processINILine hs cur l with e | s
    · rfl
    · exact ih s.1 s.2

theorem stepMany_append (a b : List String) (hs : List (String × Pairs))
    (cur : Option String) :
    stepMany (a ++ b) hs cur =
      match stepMany a hs cur with
      | Except.error p => Except.error p
      | Except.ok s => stepMany b s.1 s.2 := by
  induction a generalizing hs cur with
  | nil => rfl
  | cons l ls ih =>
    rw [List.cons_append, stepMany, stepMany]
    rcases h : processINILine hs cur l with e | s
    · rfl
    · exact ih s.1 s.2

/-! ### Per-line parse computation -/

theorem mapMem_false_iff {α : Type} (m : List (String × α)) (k : String) :
    mapMem m k = false ↔ mapFind m k = none := by
  unfold mapMem
  cases mapFind m k <;> simp

theorem mapMem_true_iff {α : Type} (m : List (String × α)) (k : String) :
    mapMem m k = true ↔ ∃ v, mapFind m k = some v := by
  unfold mapMem
  cases mapFind m k <;> simp

theorem getLast?_of_ne_nil {α : Type} {l : List α} (h : l ≠ []) :
    ∃ c, l.getLast? = some c := by
  induction l with
  | nil => exact absurd rfl h
  | cons x xs ih =>
    rcases xs with _ | ⟨y, ys⟩
    · exact ⟨x, rfl⟩
    · obtain ⟨c, hc⟩ := ih (by simp)
      exact ⟨c, by rw [List.getLast?_cons_cons]; exact hc⟩

theorem getLast?_append_of_ne_nil {α : Type} {l2 : List α} (l1 : List α) (h : l2 ≠ []) :
    (l1 ++ l2).getLast? = l2.getLast? := by
  obtain ⟨c, hc⟩ := getLast?_of_ne_nil h
  rw [List.getLast?_append, hc]
  rfl

theorem fix_head_not_space {l : List Char} (hfix : goTrimList l = l) (hne : l ≠ []) :
    ∃ c cs, l = c :: cs ∧ goIsSpace c = false := by
  rcases l with _ | ⟨c, cs⟩
  · exact absurd rfl hne
  · exact ⟨c, cs, rfl, dropWhile_fix_head (goTrimList_fix_left hfix) rfl⟩

theorem fix_last_not_space {l : List Char} (hfix : goTrimList l = l) {c : Char}
    (h : l.getLast? = some c) : goIsSpace c = false :=
  goTrimRight_getLast? (goTrimList_fix_right hfix) h

theorem idxEq_append_of_not_mem {a : List Char} (b : List Char) (h : '=' ∉ a) :
    idxEq (a ++ b) = (idxEq b).map (fun n => n + a.length) := by
  induction a with
  | nil =>
    rw [List.nil_append]
    cases idxEq b <;> simp
  | cons c cs ih =>
    rw [List.mem_cons] at h
    push_neg at h
    rw [List.cons_append, idxEq, if_neg (fun hc => h.1 hc.symm), ih h.2]
    cases idxEq b <;> simp
    omega

theorem goLen_mk_ge (l : List Char) : l.length ≤ goLen ⟨l⟩ := length_le_goLen ⟨l⟩

/-- A serialized `key = value` line parses back to exactly that pair, updating
the current header (and creating the unnamed one when there is none). -/
theorem processINILine_pairLine (hs : List (String × Pairs)) (cur : Option String)
    {n v : String} (hn : validKey n) (hv : validValue v) :
    processINILine hs cur ⟨pairLineChars (n, v)⟩ =
      match cur with
      | none => Except.ok (mapAdjust (mapInsert hs "" []) "" n v, some "")
      | some c => Except.ok (mapAdjust hs c n v, some c) := by
  obtain ⟨hn1, hn2, hn3, hn4, hn5, hn6⟩ := hn
  obtain ⟨hv1, hv2, hv3⟩ := hv
  obtain ⟨c, cs, hcs, hc⟩ := fix_head_not_space hn2 hn1
  obtain ⟨d, hd⟩ := getLast?_of_ne_nil hv1
  have hdns : goIsSpace d = false := fix_last_not_space hv2 hd
  have hL : pairLineChars (n, v) = n.data ++ (' ' :: '=' :: ' ' :: v.data) := rfl
  have htrimL : goTrimList (pairLineChars (n, v)) = pairLineChars (n, v) := by
    apply goTrimList_of_edges (c := c) (d := d)
    · rw [hL, hcs]
      rfl
    · exact hc
    · rw [hL, getLast?_append_of_ne_nil _ (by simp)]
      rw [show (' ' :: '=' :: ' ' :: v.data) = [' ', '=', ' '] ++ v.data from rfl]
      rw [getLast?_append_of_ne_nil _ hv1]
      exact hd
    · exact hdns
  have htrim : goTrim ⟨pairLineChars (n, v)⟩ = ⟨pairLineChars (n, v)⟩ := by
    show (⟨goTrimList (pairLineChars (n, v))⟩ : String) = _
    rw [htrimL]
  have hlen2 : 2 ≤ goLen ⟨pairLineChars (n, v)⟩ := by
    have h1 := goLen_mk_ge (pairLineChars (n, v))
    have h2 : 1 ≤ n.data.length := List.length_pos.mpr hn1
    have h3 : (pairLineChars (n, v)).length = n.data.length + (3 + v.data.length) := by
      rw [hL]
      simp
      omega
    omega
  have hne0 : ¬ goLen ⟨pairLineChars (n, v)⟩ = 0 := by omega
  have htake : (pairLineChars (n, v)).take 2 ≠ ['/', '/'] := by
    rw [hL, hcs]
    rcases cs with _ | ⟨c2, cs'⟩
    · simp
    · rw [hcs] at hn6
      intro hcon
      apply hn6
      simp at hcon ⊢
      exact ⟨hcon.1, hcon.2⟩
  have hhead : (pairLineChars (n, v)).head? ≠ some '[' := by
    rw [hL, hcs]
    rw [hcs] at hn5
    simpa using hn5
  have hidx : idxEq (pairLineChars (n, v)) = some (n.data.length + 1) := by
    rw [hL, idxEq_append_of_not_mem _ hn4]
    have h1 : idxEq (' ' :: '=' :: ' ' :: v.data) = some 1 := by
      rw [idxEq, if_neg (by decide), idxEq, if_pos rfl]
      rfl
    rw [h1]
    simp [Nat.add_comm]
  have htake2 : (pairLineChars (n, v)).take (n.data.length + 1) = n.data ++ [' '] := by
    rw [hL, List.take_append 1]
    rfl
  have hname : goTrim ⟨n.data ++ [' ']⟩ = n := by
    show (⟨goTrimList (n.data ++ [' '])⟩ : String) = n
    have h1 : List.dropWhile goIsSpace (n.data ++ [' ']) = n.data ++ [' '] := by
      rw [hcs, List.cons_append]
      exact List.dropWhile_cons_of_neg (by simp [hc])
    have h2 : goTrimList (n.data ++ [' ']) = n.data := by
      show goTrimRight (List.dropWhile goIsSpace (n.data ++ [' '])) = n.data
      rw [h1, goTrimRight_append_space _ (by decide)]
      exact goTrimList_fix_right hn2
    rw [h2]
  have hdrop : (pairLineChars (n, v)).drop (n.data.length + 1 + 1) = ' ' :: v.data := by
    rw [hL, show n.data.length + 1 + 1 = n.data.length + 2 from rfl, List.drop_append 2]
    rfl
  have hvalue : goTrim ⟨' ' :: v.data⟩ = v := by
    show (⟨goTrimList (' ' :: v.data)⟩ : String) = v
    have h1 : goTrimList (' ' :: v.data) = v.data := by
      show goTrimRight (List.dropWhile goIsSpace (' ' :: v.data)) = v.data
      rw [List.dropWhile_cons_of_pos (by decide)]
      rw [goTrimList_fix_left hv2]
      exact goTrimList_fix_right hv2
    rw [h1]
  have hnNe : ¬ goLen n = 0 := fun h0 => hn1 (goLen_eq_zero.mp h0)
  have hvNe : ¬ goLen v = 0 := fun h0 => hv1 (goLen_eq_zero.mp h0)
  unfold processINILine
  rw [htrim]
  simp only [string_eta]
  rw [if_neg hne0, if_pos hlen2, if_neg htake, if_neg hhead, hidx]
  simp only
  rw [htake2, hname, hdrop, hvalue]
  rw [if_neg hnNe, if_neg hvNe]

/-- A serialized `[name]` header line parses back to a new empty header that
becomes current. -/
theorem processINILine_headerLine (hs : List (String × Pairs)) (cur : Option String)
    {h : String} (hne : h.data ≠ []) (hmem : mapMem hs h = false) :
    processINILine hs cur ⟨headerLineChars h⟩ = Except.ok (hs ++ [(h, [])], some h) := by
  have hL : headerLineChars h = ('[' :: h.data) ++ [']'] := by
    show '[' :: h.data ++ [']'] = ('[' :: h.data) ++ [']']
    rfl
  have hlast : (headerLineChars h).getLast? = some ']' := by
    rw [hL, List.getLast?_concat]
  have htrimL : goTrimList (headerLineChars h) = headerLineChars h := by
    apply goTrimList_of_edges (c := '[') (d := ']')
    · rfl
    · decide
    · exact hlast
    · decide
  have htrim : goTrim ⟨headerLineChars h⟩ = ⟨headerLineChars h⟩ := by
    show (⟨goTrimList (headerLineChars h)⟩ : String) = _
    rw [htrimL]
  have hlen2 : 2 ≤ goLen ⟨headerLineChars h⟩ := by
    have h1 := goLen_mk_ge (headerLineChars h)
    have h2 : (headerLineChars h).length = h.data.length + 2 := by
      rw [hL]
      simp
    omega
  have hne0 : ¬ goLen ⟨headerLineChars h⟩ = 0 := by omega
  have htake : (headerLineChars h).take 2 ≠ ['/', '/'] := by
    show ('[' :: (h.data ++ [']'])).take 2 ≠ ['/', '/']
    intro hcon
    rw [List.take_succ_cons] at hcon
    have h1 : '[' = '/' := by
      have h2 := congrArg (fun l => l.head?) hcon
      simpa using h2
    exact absurd h1 (by decide)
  have hhead : (headerLineChars h).head? = some '[' := rfl
  have hdrop : ((headerLineChars h).drop 1).dropLast = h.data := by
    show (h.data ++ [']']).dropLast = h.data
    exact List.dropLast_concat
  have hneLen : ¬ goLen ⟨h.data⟩ = 0 := by
    intro h0
    exact hne (goLen_eq_zero.mp h0)
  unfold processINILine
  rw [htrim]
  simp only [string_eta]
  rw [if_neg hne0, if_pos hlen2, if_neg htake, if_pos hhead, if_pos hlast]
  rw [hdrop]
  rw [if_neg hneLen]
  have hfind : mapFind hs h = none := (mapMem_false_iff hs h).mp hmem
  rw [if_neg (show ¬ mapMem hs h = true by rw [hmem]; exact Bool.false_ne_true)]
  show Except.ok (mapInsert hs h [], some h) = Except.ok (hs ++ [(h, [])], some h)
  rw [mapInsert_of_absent _ hfind]

/-! ### Composed parsing of serialized blocks -/

theorem string_ext {s t : String} (h : s.data = t.data) : s = t := by
  cases s
  cases t
  exact congrArg String.mk h

theorem string_eq_empty_iff {s : String} : s = "" ↔ s.data = [] := by
  constructor
  · intro h
    rw [h]
  · intro h
    exact string_ext h

theorem stepMany_cons (l : String) (ls : List String) (hs : List (String × Pairs))
    (cur : Option String) :
    stepMany (l :: ls) hs cur =
      match processINILine hs cur l with
      | Except.error e => Except.error (hs, e)
      | Except.ok s => stepMany ls s.1 s.2 := rfl

theorem adjustAll_cons (hs : List (String × Pairs)) (c : String) (q : String × String)
    (vs : Pairs) :
    adjustAll hs c (q :: vs) = adjustAll (mapAdjust hs c q.1 q.2) c vs := rfl

theorem insertAll_cons (ps : Pairs) (q : String × String) (vs : Pairs) :
    insertAll ps (q :: vs) = insertAll (mapInsert ps q.1 q.2) vs := rfl

theorem stepMany_pairLines (vs : Pairs) (hs : List (String × Pairs)) (c : String)
    (hval : ∀ q ∈ vs, validKey q.1 ∧ validValue q.2) :
    stepMany ((vs.map pairLineChars).map (fun cs => (⟨cs⟩ : String))) hs (some c) =
      Except.ok (adjustAll hs c vs, some c) := by
  induction vs generalizing hs with
  | nil => rfl
  | cons q rest ih =>
    obtain ⟨n, v⟩ := q
    rw [List.map_cons, List.map_cons, stepMany_cons]
    rw [processINILine_pairLine hs (some c) (hval (n, v) (by simp)).1 (hval (n, v) (by simp)).2]
    simp only
    rw [ih (mapAdjust hs c n v) (fun p hp => hval p (List.mem_cons_of_mem _ hp))]
    rfl

theorem adjustAll_append_absent {hs : List (String × Pairs)} {h : String}
    (habs : mapFind hs h = none) (ps : Pairs) (vs : Pairs) :
    adjustAll (hs ++ [(h, ps)]) h vs = hs ++ [(h, insertAll ps vs)] := by
  induction vs generalizing ps with
  | nil => rfl
  | cons q rest ih =>
    rw [adjustAll_cons, mapAdjust_append_absent habs, ih, insertAll_cons]

theorem insertAll_of_disjoint {vs : Pairs} {ps : Pairs}
    (habs : ∀ k ∈ vs.map Prod.fst, mapFind ps k = none)
    (hnodup : (vs.map Prod.fst).Nodup) : insertAll ps vs = ps ++ vs := by
  induction vs generalizing ps with
  | nil => simp [insertAll]
  | cons q rest ih =>
    obtain ⟨n, v⟩ := q
    rw [insertAll_cons]
    rw [mapInsert_of_absent _ (habs n (by simp))]
    rw [List.map_cons] at hnodup
    have h1 : ∀ k ∈ rest.map Prod.fst, mapFind (ps ++ [(n, v)]) k = none := by
      intro k hk
      rw [mapFind_append, habs k (by simp [hk])]
      have hne : ¬ (n = k) := by
        intro hnk
        rw [List.nodup_cons] at hnodup
        exact hnodup.1 (hnk ▸ hk)
      simp [mapFind, hne]
    rw [ih h1 (List.nodup_cons.mp hnodup).2]
    simp

theorem stepMany_blocks (bs : List (String × Pairs)) (hs : List (String × Pairs))
    (cur : Option String)
    (hval : ∀ p ∈ bs, p.1.data ≠ [] ∧ (∀ q ∈ p.2, validKey q.1 ∧ validValue q.2) ∧
      (p.2.map Prod.fst).Nodup)
    (hnodup : (bs.map Prod.fst).Nodup)
    (habs : ∀ p ∈ bs, mapFind hs p.1 = none) :
    ∃ cur', stepMany
        ((bs.map (fun p => headerLineChars p.1 :: p.2.map pairLineChars)).flatten.map
          (fun cs => (⟨cs⟩ : String))) hs cur =
      Except.ok (hs ++ bs, cur') := by
  induction bs generalizing hs cur with
  | nil => exact ⟨cur, by simp [stepMany]⟩
  | cons p rest ih =>
    obtain ⟨h, vs⟩ := p
    rw [List.map_cons, List.flatten_cons, List.map_append, List.map_cons,
      List.cons_append]
    rw [stepMany_cons]
    have hmemf : mapMem hs h = false :=
      (mapMem_false_iff hs h).mpr (habs (h, vs) (by simp))
    rw [processINILine_headerLine hs cur (hval (h, vs) (by simp)).1 hmemf]
    simp only
    rw [stepMany_append]
    rw [stepMany_pairLines vs (hs ++ [(h, [])]) h (hval (h, vs) (by simp)).2.1]
    simp only
    rw [adjustAll_append_absent (habs (h, vs) (by simp)) [] vs]
    have hins : insertAll [] vs = vs := by
      rw [insertAll_of_disjoint (by intro k _; rfl) (hval (h, vs) (by simp)).2.2]
      rfl
    rw [hins]
    have habs' : ∀ p ∈ rest, mapFind (hs ++ [(h, vs)]) p.1 = none := by
      intro p hp
      rw [mapFind_append, habs p (List.mem_cons_of_mem _ hp)]
      have hne : ¬ (h = p.1) := by
        rw [List.map_cons, List.nodup_cons] at hnodup
        intro hcon
        apply hnodup.1
        rw [hcon]
        exact List.mem_map.mpr ⟨p, hp, rfl⟩
      simp [mapFind, hne]
    obtain ⟨cur', hcur'⟩ := ih (hs ++ [(h, vs)]) (some h)
      (fun p hp => hval p (List.mem_cons_of_mem _ hp))
      ((List.nodup_cons.mp (by rw [List.map_cons] at hnodup; exact hnodup)).2)
      habs'
    refine ⟨cur', ?_⟩
    rw [hcur']
    simp

theorem filter_ne_empty_keys_nodup (si : SettingsINI) (hwf : INIWF si) :
    ((si.Headers.filter (fun p => p.1 ≠ "")).map Prod.fst).Nodup := by
  have hsub : ((si.Headers.filter (fun p => p.1 ≠ "")).map Prod.fst).Sublist
      (si.Headers.map Prod.fst) := (List.filter_sublist _).map Prod.fst
  exact hwf.1.sublist hsub

theorem stepMany_iniLines (si : SettingsINI) (hwf : INIWF si) :
    ∃ cur', stepMany ((iniLines si).map (fun cs => (⟨cs⟩ : String))) [] none =
      Except.ok (reparsedHeaders si, cur') := by
  have hblocksval : ∀ p ∈ si.Headers.filter (fun q => q.1 ≠ ""),
      p.1.data ≠ [] ∧ (∀ q ∈ p.2, validKey q.1 ∧ validValue q.2) ∧
        (p.2.map Prod.fst).Nodup := by
    intro p hp
    have hmem := List.mem_of_mem_filter hp
    have hne : p.1 ≠ "" := by
      have := List.of_mem_filter hp
      simpa using this
    refine ⟨fun hd => hne (string_eq_empty_iff.mpr hd), ?_, ?_⟩
    · exact (hwf.2 p hmem).2.2
    · exact (hwf.2 p hmem).2.1
  have hblocksnodup := filter_ne_empty_keys_nodup si hwf
  rcases hf : mapFind si.Headers "" with _ | vs
  · have hlines : iniLines si =
        ((si.Headers.filter (fun p => p.1 ≠ "")).map
          (fun p => headerLineChars p.1 :: p.2.map pairLineChars)).flatten := by
      unfold iniLines
      rw [hf]
      rfl
    have hrep : reparsedHeaders si = si.Headers.filter (fun p => p.1 ≠ "") := by
      unfold reparsedHeaders
      rw [hf]
      rfl
    rw [hlines, hrep]
    exact stepMany_blocks _ [] none hblocksval hblocksnodup (fun p _ => rfl)
  · rcases vs with _ | ⟨q, vs'⟩
    · have hlines : iniLines si =
          ((si.Headers.filter (fun p => p.1 ≠ "")).map
            (fun p => headerLineChars p.1 :: p.2.map pairLineChars)).flatten := by
        unfold iniLines
        rw [hf]
        rfl
      have hrep : reparsedHeaders si = si.Headers.filter (fun p => p.1 ≠ "") := by
        unfold reparsedHeaders
        rw [hf]
        rfl
      rw [hlines, hrep]
      exact stepMany_blocks _ [] none hblocksval hblocksnodup (fun p _ => rfl)
    · obtain ⟨n, v⟩ := q
      have hqmem : ((""), (n, v) :: vs') ∈ si.Headers := mapFind_mem hf
      have hpairs := (hwf.2 _ hqmem).2.2
      have hpnodup := (hwf.2 _ hqmem).2.1
      have hlines : iniLines si = ((n, v) :: vs').map pairLineChars ++
          ((si.Headers.filter (fun p => p.1 ≠ "")).map
            (fun p => headerLineChars p.1 :: p.2.map pairLineChars)).flatten := by
        unfold iniLines
        rw [hf]
      have hrep : reparsedHeaders si =
          [("", (n, v) :: vs')] ++ si.Headers.filter (fun p => p.1 ≠ "") := by
        unfold reparsedHeaders
        rw [hf]
      rw [hlines, hrep, List.map_append, stepMany_append]
      rw [List.map_cons, List.map_cons, stepMany_cons]
      rw [processINILine_pairLine [] none (hpairs (n, v) (by simp)).1
        (hpairs (n, v) (by simp)).2]
      simp only
      rw [stepMany_pairLines vs' (mapAdjust (mapInsert [] "" []) "" n v) ""
        (fun p hp => hpairs p (List.mem_cons_of_mem _ hp))]
      simp only
      have hstate : mapAdjust (mapInsert [] "" []) "" n v = [("", [(n, v)])] := rfl
      rw [hstate]
      have hadj : adjustAll [("", [(n, v)])] "" vs' = [("", (n, v) :: vs')] := by
        have h1 : adjustAll ([] ++ [("", [(n, v)])]) "" vs' =
            [] ++ [("", insertAll [(n, v)] vs')] :=
          adjustAll_append_absent (show mapFind ([] : List (String × Pairs)) "" = none from rfl) _ _
        simp only [List.nil_append] at h1
        rw [h1]
        have h2 : insertAll [(n, v)] vs' = [(n, v)] ++ vs' := by
          apply insertAll_of_disjoint
          · intro k hk
            rw [List.map_cons, List.nodup_cons] at hpnodup
            have hne : ¬ (n = k) := fun hc => hpnodup.1 (hc ▸ hk)
            simp [mapFind, hne]
          · rw [List.map_cons, List.nodup_cons] at hpnodup
            exact hpnodup.2
        rw [h2]
        rfl
      rw [hadj]
      have habs' : ∀ p ∈ si.Headers.filter (fun q => q.1 ≠ ""),
          mapFind [("", (n, v) :: vs')] p.1 = none := by
        intro p hp
        have hne : p.1 ≠ "" := by
          have h0 := List.of_mem_filter hp
          simpa using h0
        show (if "" = p.1 then some ((n, v) :: vs') else mapFind [] p.1) = none
        rw [if_neg (fun hc => hne hc.symm)]
        rfl
      obtain ⟨cur', hcur'⟩ := stepMany_blocks (si.Headers.filter (fun q => q.1 ≠ ""))
        [("", (n, v) :: vs')] (some "") hblocksval hblocksnodup habs'
      refine ⟨cur', ?_⟩
      rw [hcur']

/-! ### The characters `Save` writes -/

theorem pairLine_data (q : String × String) :
    (pairLine q.1 q.2).data = pairLineChars q ++ ['\n'] := by
  obtain ⟨n, v⟩ := q
  show (n ++ " = " ++ v ++ "\n").data = (n.data ++ (' ' :: '=' :: ' ' :: v.data)) ++ ['\n']
  rw [String.data_append, String.data_append, String.data_append]
  have h1 : (" = ").data = [' ', '=', ' '] := rfl
  have h2 : ("\n").data = ['\n'] := rfl
  rw [h1, h2]
  simp

theorem pairsLines_data (vs : Pairs) :
    ((vs.map (fun q => pairLine q.1 q.2)).map String.data).flatten =
      ((vs.map pairLineChars).map (fun l => l ++ ['\n'])).flatten := by
  induction vs with
  | nil => rfl
  | cons q rest ih =>
    rw [List.map_cons, List.map_cons, List.flatten_cons, List.map_cons, List.map_cons,
      List.flatten_cons, ih]
    congr 1
    exact pairLine_data q

theorem pairsText_data (vs : Pairs) :
    (pairsText vs).data = ((vs.map pairLineChars).map (fun l => l ++ ['\n'])).flatten := by
  unfold pairsText
  rw [join_data, pairsLines_data]

theorem blockText_data (p : String × Pairs) :
    ("[" ++ p.1 ++ "]\n" ++ pairsText p.2).data =
      ((headerLineChars p.1 :: p.2.map pairLineChars).map (fun l => l ++ ['\n'])).flatten := by
  rw [String.data_append, String.data_append, String.data_append, pairsText_data]
  rw [List.map_cons, List.flatten_cons]
  have h1 : ("[").data = ['['] := rfl
  have h2 : ("]\n").data = [']', '\n'] := rfl
  rw [h1, h2]
  show ['['] ++ p.1.data ++ [']', '\n'] ++ _ = (('[' :: p.1.data ++ [']']) ++ ['\n']) ++ _
  simp

theorem saveStringINI_data (si : SettingsINI) :
    (saveStringINI si).data = ((iniLines si).map (fun l => l ++ ['\n'])).flatten := by
  unfold saveStringINI iniLines
  rw [String.data_append, List.map_append, List.flatten_append]
  congr 1
  · rcases hf : mapFind si.Headers "" with _ | vs
    · rfl
    · exact pairsText_data vs
  · rw [join_data]
    generalize si.Headers.filter (fun p => p.1 ≠ "") = L
    induction L with
    | nil => rfl
    | cons p rest ih =>
      rw [List.map_cons, List.map_cons, List.flatten_cons, List.map_cons, List.flatten_cons,
        List.map_append, List.flatten_append, ih]
      congr 1
      exact blockText_data p

/-! ### Safety of the serialized lines -/

theorem pairLineChars_safe {q : String × String} (hn : validKey q.1) (hv : validValue q.2) :
    '\n' ∉ pairLineChars q ∧ (pairLineChars q).getLast? ≠ some '\r' := by
  obtain ⟨n, v⟩ := q
  obtain ⟨d, hd⟩ := getLast?_of_ne_nil hv.1
  have hdns := fix_last_not_space hv.2.1 hd
  constructor
  · intro hmem
    rcases List.mem_append.mp hmem with h1 | h1
    · exact hn.2.2.1 h1
    · simp only [List.mem_cons] at h1
      rcases h1 with h1 | h1 | h1 | h1
      · exact absurd h1 (by decide)
      · exact absurd h1 (by decide)
      · exact absurd h1 (by decide)
      · exact hv.2.2 h1
  · rw [show pairLineChars (n, v) = n.data ++ (' ' :: '=' :: ' ' :: v.data) from rfl]
    rw [getLast?_append_of_ne_nil _ (by simp)]
    rw [show (' ' :: '=' :: ' ' :: v.data) = [' ', '=', ' '] ++ v.data from rfl]
    rw [getLast?_append_of_ne_nil _ hv.1, hd]
    intro hcon
    have h1 : d = '\r' := Option.some.inj hcon
    rw [h1] at hdns
    exact absurd hdns (by decide)

theorem headerLineChars_safe {h : String} (hh : validHeaderArg h) :
    '\n' ∉ headerLineChars h ∧ (headerLineChars h).getLast? ≠ some '\r' := by
  constructor
  · intro hmem
    rcases List.mem_cons.mp hmem with h1 | h1
    · exact absurd h1 (by decide)
    · rcases List.mem_append.mp h1 with h2 | h2
      · exact hh h2
      · simp only [List.mem_singleton] at h2
        exact absurd h2 (by decide)
  · rw [show headerLineChars h = ('[' :: h.data) ++ [']'] from rfl, List.getLast?_concat]
    intro hcon
    exact absurd (Option.some.inj hcon) (by decide)

theorem iniLines_safe (si : SettingsINI) (hwf : INIWF si) :
    ∀ l ∈ iniLines si, '\n' ∉ l ∧ l.getLast? ≠ some '\r' := by
  intro l hl
  unfold iniLines at hl
  rcases List.mem_append.mp hl with h1 | h1
  · rcases hf : mapFind si.Headers "" with _ | vs
    · rw [hf] at h1
      exact absurd h1 (List.not_mem_nil l)
    · rw [hf] at h1
      obtain ⟨q, hq, hq2⟩ := List.mem_map.mp h1
      have hmem := mapFind_mem hf
      have hval := (hwf.2 _ hmem).2.2 q hq
      rw [← hq2]
      exact pairLineChars_safe hval.1 hval.2
  · obtain ⟨block, hb1, hb2⟩ := List.mem_flatten.mp h1
    obtain ⟨p, hp, hpe⟩ := List.mem_map.mp hb1
    have hmem := List.mem_of_mem_filter hp
    rw [← hpe] at hb2
    rcases List.mem_cons.mp hb2 with h2 | h2
    · rw [h2]
      exact headerLineChars_safe (hwf.2 p hmem).1
    · obtain ⟨q, hq, hq2⟩ := List.mem_map.mp h2
      have hval := (hwf.2 p hmem).2.2 q hq
      rw [← hq2]
      exact pairLineChars_safe hval.1 hval.2

/-! ### Reloading a saved store -/

theorem parse_saveString (si : SettingsINI) (hwf : INIWF si) :
    parseINI (goLines (saveStringINI si)) [] none = (reparsedHeaders si, none) := by
  have hsave : saveStringINI si = ⟨((iniLines si).map (fun l => l ++ ['\n'])).flatten⟩ :=
    string_ext (saveStringINI_data si)
  rw [hsave, goLines_join _ (iniLines_safe si hwf)]
  rw [parseINI_eq_stepMany, stepMany_append]
  obtain ⟨cur', hcur'⟩ := stepMany_iniLines si hwf
  rw [hcur']
  simp only
  rw [show stepMany [""] (reparsedHeaders si) cur' =
    Except.ok (reparsedHeaders si, cur') from rfl]

/-! ### Well-formedness of built stores -/

theorem mapInsert_append_absent {α : Type} {m : List (String × α)} {k : String}
    (h : mapFind m k = none) (x y : α) :
    mapInsert (m ++ [(k, x)]) k y = m ++ [(k, y)] := by
  induction m with
  | nil => simp [mapInsert]
  | cons p rest ih =>
    obtain ⟨k', v'⟩ := p
    by_cases hk : k' = k
    · simp [mapFind, hk] at h
    · simp [mapFind, hk] at h
      simp [mapInsert, hk, ih h]

theorem BuiltINI_wf {si : SettingsINI} (hb : BuiltINI si) : INIWF si := by
  induction hb with
  | new b =>
    constructor
    · simp [NewSettingsINI]
    · intro p hp
      simp [NewSettingsINI] at hp
  | add si h n v hb hh hn hv ih =>
    rcases hf : mapFind si.Headers h with _ | vs
    · have heq : (si.Add h n v).1.Headers = si.Headers ++ [(h, [(n, v)])] := by
        simp only [SettingsINI.Add, hf]
        rw [mapInsert_of_absent _ hf, mapInsert_append_absent hf]
      constructor
      · rw [heq, List.map_append]
        apply List.Nodup.append ih.1 (by simp)
        intro a ha hb2
        simp at hb2
        subst hb2
        exact (mapFind_eq_none_iff si.Headers a).mp hf (by simpa using ha)
      · intro p hp
        rw [heq] at hp
        rcases List.mem_append.mp hp with h1 | h1
        · exact ih.2 p h1
        · simp at h1
          subst h1
          exact ⟨hh, by simp, by
            intro q hq
            simp at hq
            subst hq
            exact ⟨hn, hv⟩⟩
    · by_cases hm : mapMem vs n
      · have heq : (si.Add h n v).1 = si := by
          simp only [SettingsINI.Add, hf, hm, if_true]
        rw [heq]
        exact ih
      · have heq : (si.Add h n v).1.Headers = mapInsert si.Headers h (mapInsert vs n v) := by
          simp only [SettingsINI.Add, hf]
          rw [if_neg hm]
        have hvmem : (h, vs) ∈ si.Headers := mapFind_mem hf
        have hold := ih.2 _ hvmem
        have hfindn : mapFind vs n = none := (mapMem_false_iff vs n).mp (by
          rcases h0 : mapMem vs n with _ | _
          · rfl
          · exact absurd h0 hm)
        constructor
        · rw [heq, mapInsert_keys_of_mem _ (by rw [hf]; exact fun hc => Option.noConfusion hc)]
          exact ih.1
        · intro p hp
          rw [heq] at hp
          rcases mem_mapInsert p hp with h1 | h1
          · subst h1
            refine ⟨hold.1, ?_, ?_⟩
            · rw [mapInsert_of_absent _ hfindn, List.map_append]
              apply List.Nodup.append hold.2.1 (by simp)
              intro a ha hb2
              simp at hb2
              subst hb2
              exact (mapFind_eq_none_iff vs a).mp hfindn (by simpa using ha)
            · intro q hq
              rw [mapInsert_of_absent _ hfindn] at hq
              rcases List.mem_append.mp hq with h2 | h2
              · exact hold.2.2 q h2
              · simp at h2
                subst h2
                exact ⟨hn, hv⟩
          · exact ih.2 p h1
  | set si h n v hb hv ih =>
    rcases hf : mapFind si.Headers h with _ | vs
    · have heq : (si.Set h n v).1 = si := by
        simp only [SettingsINI.Set, hf]
      rw [heq]
      exact ih
    · by_cases hm : mapMem vs n
      · have heq : (si.Set h n v).1.Headers = mapInsert si.Headers h (mapInsert vs n v) := by
          simp only [SettingsINI.Set, hf]
          rw [if_pos hm]
        have hvmem : (h, vs) ∈ si.Headers := mapFind_mem hf
        have hold := ih.2 _ hvmem
        obtain ⟨ov, hov⟩ := (mapMem_true_iff vs n).mp hm
        have hovmem : (n, ov) ∈ vs := mapFind_mem hov
        have hnvalid : validKey n := (hold.2.2 _ hovmem).1
        constructor
        · rw [heq, mapInsert_keys_of_mem _ (by rw [hf]; exact fun hc => Option.noConfusion hc)]
          exact ih.1
        · intro p hp
          rw [heq] at hp
          rcases mem_mapInsert p hp with h1 | h1
          · subst h1
            refine ⟨hold.1, ?_, ?_⟩
            · rw [mapInsert_keys_of_mem _ (by rw [hov]; exact fun hc => Option.noConfusion hc)]
              exact hold.2.1
            · intro q hq
              rcases mem_mapInsert q hq with h2 | h2
              · subst h2
                exact ⟨hnvalid, hv⟩
              · exact hold.2.2 q h2
          · exact ih.2 p h1
      · have heq : (si.Set h n v).1 = si := by
          simp only [SettingsINI.Set, hf]
          rw [if_neg hm]
        rw [heq]
        exact ih

/-! ### Observational equality of the reloaded store -/

theorem mapFind_filter_self (m : List (String × Pairs)) :
    mapFind (m.filter (fun p => p.1 ≠ "")) "" = none := by
  induction m with
  | nil => rfl
  | cons p rest ih =>
    obtain ⟨k, vs⟩ := p
    by_cases hk : k = ""
    · rw [List.filter_cons_of_neg (by simp [hk])]
      exact ih
    · rw [List.filter_cons_of_pos (by simp [hk])]
      show (if k = "" then some vs else _) = none
      rw [if_neg hk]
      exact ih

theorem mapFind_filter_ne {m : List (String × Pairs)} {h : String} (hne : h ≠ "") :
    mapFind (m.filter (fun p => p.1 ≠ "")) h = mapFind m h := by
  induction m with
  | nil => rfl
  | cons p rest ih =>
    obtain ⟨k, vs⟩ := p
    by_cases hk : k = ""
    · subst hk
      rw [List.filter_cons_of_neg (by simp)]
      rw [ih]
      show mapFind rest h = if "" = h then some vs else mapFind rest h
      rw [if_neg (fun hc => hne hc.symm)]
    · rw [List.filter_cons_of_pos (by simp [hk])]
      show (if k = h then some vs else _) = (if k = h then some vs else mapFind rest h)
      by_cases hk2 : k = h
      · rw [if_pos hk2, if_pos hk2]
      · rw [if_neg hk2, if_neg hk2]
        exact ih

theorem mapFind_reparsed_ne (si : SettingsINI) {h : String} (hne : h ≠ "") :
    mapFind (reparsedHeaders si) h = mapFind si.Headers h := by
  unfold reparsedHeaders
  rcases hf : mapFind si.Headers "" with _ | vs
  · exact mapFind_filter_ne hne
  · rcases vs with _ | ⟨q, vs'⟩
    · exact mapFind_filter_ne hne
    · show (if ("" : String) = h then some (q :: vs') else _) = mapFind si.Headers h
      rw [if_neg (fun hc => hne hc.symm)]
      exact mapFind_filter_ne hne

theorem Get_reparsed (si : SettingsINI) (b : Int) (f : String) (h n : String) :
    SettingsINI.Get ⟨b, f, reparsedHeaders si⟩ h n = si.Get h n := by
  unfold SettingsINI.Get
  by_cases hcase : h = ""
  · subst hcase
    unfold reparsedHeaders
    rcases hf : mapFind si.Headers "" with _ | vs
    · rw [show mapFind (([] : List (String × Pairs)) ++
        si.Headers.filter (fun p => p.1 ≠ "")) "" = none from mapFind_filter_self _]
    · rcases vs with _ | ⟨q, vs'⟩
      · rw [show mapFind (([] : List (String × Pairs)) ++
          si.Headers.filter (fun p => p.1 ≠ "")) "" = none from mapFind_filter_self _]
        rfl
      · rw [show mapFind ([("", q :: vs')] ++ si.Headers.filter (fun p => p.1 ≠ "")) "" =
          some (q :: vs') from by
            show (if ("" : String) = "" then some (q :: vs') else _) = some (q :: vs')
            rw [if_pos rfl]]
  · rw [mapFind_reparsed_ne si hcase]

/-! ### Single-character split lemmas -/

theorem splitGo_cons_succ (sep : List Char) (x : Char) (xs : List Char) (fuel : Nat) :
    splitGo sep (x :: xs) (fuel + 1) =
      if sep.isPrefixOf (x :: xs) then [] :: splitGo sep ((x :: xs).drop sep.length) fuel
      else
        match splitGo sep xs fuel with
        | [] => [[x]]
        | r :: rs => (x :: r) :: rs := rfl

theorem splitGo_fuel_irrel {sep : List Char} (hsep : sep ≠ []) :
    ∀ (f1 f2 : Nat) (l : List Char), l.length ≤ f1 → l.length ≤ f2 →
      splitGo sep l f1 = splitGo sep l f2 := by
  intro f1
  induction f1 with
  | zero =>
    intro f2 l h1 _
    have hl : l = [] := List.length_eq_zero.mp (by omega)
    subst hl
    cases f2 <;> rfl
  | succ f ihf =>
    intro f2 l h1 h2
    cases l with
    | nil => cases f2 <;> rfl
    | cons x xs =>
      cases f2 with
      | zero => simp at h2
      | succ f2' =>
        rw [splitGo_cons_succ, splitGo_cons_succ]
        by_cases hpre : sep.isPrefixOf (x :: xs)
        · rw [if_pos hpre, if_pos hpre]
          have hs1 : 1 ≤ sep.length := List.length_pos.mpr hsep
          have hlen1 : ((x :: xs).drop sep.length).length ≤ f := by
            rw [List.length_drop, List.length_cons]
            simp at h1
            omega
          have hlen2 : ((x :: xs).drop sep.length).length ≤ f2' := by
            rw [List.length_drop, List.length_cons]
            simp at h2
            omega
          rw [ihf f2' _ hlen1 hlen2]
        · rw [if_neg hpre, if_neg hpre]
          have hx1 : xs.length ≤ f := by
            simp at h1
            omega
          have hx2 : xs.length ≤ f2' := by
            simp at h2
            omega
          rw [ihf f2' xs hx1 hx2]

theorem isPrefixOf_single (c x : Char) (xs : List Char) :
    ([c].isPrefixOf (x :: xs)) = (c == x) := by
  simp [List.isPrefixOf]

theorem splitGo_single_no {c : Char} {a : List Char} (hnc : c ∉ a) :
    ∀ fuel, a.length ≤ fuel → splitGo [c] a fuel = [a] := by
  induction a with
  | nil => intro fuel _; cases fuel <;> rfl
  | cons x xs ih =>
    intro fuel hf
    cases fuel with
    | zero => simp at hf
    | succ f =>
      rw [List.mem_cons] at hnc
      push_neg at hnc
      rw [splitGo_cons_succ]
      rw [if_neg (by
        rw [isPrefixOf_single]
        simp
        exact hnc.1)]
      rw [ih hnc.2 f (by simp at hf; omega)]

theorem splitGo_single_boundary {c : Char} {a : List Char} (rest : List Char) (hnc : c ∉ a) :
    ∀ fuel, (a ++ c :: rest).length ≤ fuel →
      splitGo [c] (a ++ c :: rest) fuel = a :: splitGo [c] rest rest.length := by
  induction a with
  | nil =>
    intro fuel hf
    cases fuel with
    | zero => simp at hf
    | succ f =>
      rw [List.nil_append, splitGo_cons_succ]
      rw [if_pos (by rw [isPrefixOf_single]; simp)]
      have hdrop : (c :: rest).drop ([c] : List Char).length = rest := rfl
      rw [hdrop]
      have hlen : rest.length ≤ f := by
        simp at hf
        omega
      rw [splitGo_fuel_irrel (by simp) f rest.length rest hlen (le_refl _)]
  | cons x xs ih =>
    intro fuel hf
    cases fuel with
    | zero => simp at hf
    | succ f =>
      rw [List.mem_cons] at hnc
      push_neg at hnc
      rw [List.cons_append, splitGo_cons_succ]
      rw [if_neg (by
        rw [isPrefixOf_single]
        simp
        exact hnc.1)]
      rw [ih hnc.2 f (by simp at hf ⊢; omega)]

theorem goSplit_of_ne_nil {sep : List Char} (hsep : sep ≠ []) (l : List Char) :
    goSplit sep l = splitGo sep l l.length := by
  unfold goSplit
  rw [if_neg hsep]

theorem goSplit_rowChars (c : Char) (row : List String)
    (hrow : ∀ s ∈ row, c ∉ s.data) (hne : row ≠ []) :
    goSplit [c] (rowChars [c] row) = row.map String.data := by
  induction row with
  | nil => exact absurd rfl hne
  | cons a rest ih =>
    rcases rest with _ | ⟨b, rest'⟩
    · have hrc : rowChars [c] [a] = a.data := by
        show a.data ++ (([] : List String).map (fun x => [c] ++ x.data)).flatten = a.data
        simp
      rw [hrc, goSplit_of_ne_nil (by simp)]
      rw [splitGo_single_no (hrow a (by simp)) _ (le_refl _)]
      rfl
    · have hrc : rowChars [c] (a :: b :: rest') =
          a.data ++ c :: rowChars [c] (b :: rest') := by
        show a.data ++ (((b :: rest').map (fun x => [c] ++ x.data)).flatten) = _
        rw [List.map_cons, List.flatten_cons]
        show a.data ++ (([c] ++ b.data) ++ _) =
          a.data ++ (c :: (b.data ++ ((rest'.map (fun x => [c] ++ x.data)).flatten)))
        simp
      rw [hrc, goSplit_of_ne_nil (by simp)]
      rw [splitGo_single_boundary _ (hrow a (by simp)) _ (le_refl _)]
      rw [← goSplit_of_ne_nil (by simp)]
      rw [ih (fun s hs => hrow s (List.mem_cons_of_mem _ hs)) (by simp)]
      rfl

/-! ### Safety of serialized rows -/

theorem rowChars_no_nl {c : Char} {row : List String} (hc : c ≠ '\n')
    (hcell : ∀ s ∈ row, '\n' ∉ s.data) : '\n' ∉ rowChars [c] row := by
  rcases row with _ | ⟨a, rest⟩
  · simp [rowChars]
  · intro hmem
    rcases List.mem_append.mp hmem with h1 | h1
    · exact hcell a (by simp) h1
    · obtain ⟨piece, hp1, hp2⟩ := List.mem_flatten.mp h1
      obtain ⟨s, hs, hse⟩ := List.mem_map.mp hp1
      rw [← hse] at hp2
      rcases List.mem_append.mp hp2 with h2 | h2
      · simp only [List.mem_singleton] at h2
        exact hc h2.symm
      · exact hcell s (List.mem_cons_of_mem _ hs) h2

theorem rowChars_getLast {c : Char} {row : List String} (hne : row ≠ [])
    (hlast : ∀ s, row.getLast? = some s → s.data.getLast? ≠ some '\r') (hc : c ≠ '\r') :
    (rowChars [c] row).getLast? ≠ some '\r' := by
  induction row with
  | nil => exact absurd rfl hne
  | cons a rest ih =>
    rcases rest with _ | ⟨b, rest'⟩
    · have hrc : rowChars [c] [a] = a.data := by
        show a.data ++ (([] : List String).map (fun x => [c] ++ x.data)).flatten = a.data
        simp
      rw [hrc]
      exact hlast a rfl
    · have hrc : rowChars [c] (a :: b :: rest') =
          a.data ++ c :: rowChars [c] (b :: rest') := by
        show a.data ++ (((b :: rest').map (fun x => [c] ++ x.data)).flatten) = _
        rw [List.map_cons, List.flatten_cons]
        show a.data ++ (([c] ++ b.data) ++ _) =
          a.data ++ (c :: (b.data ++ ((rest'.map (fun x => [c] ++ x.data)).flatten)))
        simp
      rw [hrc, getLast?_append_of_ne_nil _ (by simp)]
      rcases hX : rowChars [c] (b :: rest') with _ | ⟨y, ys⟩
      · intro hcon
        exact hc (Option.some.inj hcon)
      · rw [List.getLast?_cons_cons, ← hX]
        apply ih (by simp)
        intro s hs
        apply hlast s
        rw [List.getLast?_cons_cons]
        exact hs

theorem rowChars_ne_nil {c : Char} {row : List String} (hne : row ≠ [])
    (hsingle : ∀ x, row = [x] → x ≠ "") : rowChars [c] row ≠ [] := by
  rcases row with _ | ⟨a, rest⟩
  · exact absurd rfl hne
  · rcases rest with _ | ⟨b, rest'⟩
    · have ha := hsingle a rfl
      show a.data ++ _ ≠ []
      intro hcon
      rcases List.append_eq_nil.mp hcon with ⟨h1, _⟩
      exact ha (string_eq_empty_iff.mpr h1)
    · show a.data ++ (((b :: rest').map (fun x => [c] ++ x.data)).flatten) ≠ []
      rw [List.map_cons, List.flatten_cons]
      intro hcon
      rcases List.append_eq_nil.mp hcon with ⟨_, h2⟩
      rcases List.append_eq_nil.mp h2 with ⟨h3, _⟩
      simp at h3

/-! ### Reloading a saved table -/

theorem loadRowsAux_cons (delim : String) (sc sr : Int) (l : String) (ls : List String)
    (counter : Int) (acc : List (List String)) :
    loadRowsAux delim sc sr (l :: ls) counter acc =
      if counter < sr then loadRowsAux delim sc sr ls (counter + 1) acc
      else if goLen l = 0 then loadRowsAux delim sc sr ls counter acc
      else if (goSplitStr delim l).length = 0 then
        some (acc, some ⟨ErrorType.Parsing, "SpreadsheetDelim",
          "Non-empty buffer did not produce delimter split values"⟩)
      else if ((goSplitStr delim l).length : Int) ≤ sc then
        loadRowsAux delim sc sr ls counter acc
      else
        match goSliceFrom (goSplitStr delim l) sc with
        | none => none
        | some cells => loadRowsAux delim sc sr ls counter (acc ++ [cells]) := rfl

theorem map_mk_data (l : List String) :
    (l.map String.data).map (fun cs => (⟨cs⟩ : String)) = l := by
  induction l with
  | nil => rfl
  | cons a rest ih =>
    rw [List.map_cons, List.map_cons, ih]

theorem rowsLines_data (d : String) (rows : List (List String)) :
    ((rows.map (rowLine d)).map String.data).flatten =
      ((rows.map (rowChars d.data)).map (fun l => l ++ ['\n'])).flatten := by
  induction rows with
  | nil => rfl
  | cons r rest ih =>
    rw [List.map_cons, List.map_cons, List.flatten_cons, List.map_cons, List.map_cons,
      List.flatten_cons, ih]
    rfl

theorem saveStringSheet_data (sd : SpreadsheetDelim) :
    (saveStringSheet sd).data =
      ((sd.Data.map (rowChars sd.delimeter.data)).map (fun l => l ++ ['\n'])).flatten := by
  unfold saveStringSheet
  rw [join_data, rowsLines_data]

theorem loadRows_saved {c : Char} (hc1 : c ≠ '\n') (hc2 : c ≠ '\r') :
    ∀ (rows : List (List String)) (acc : List (List String)),
      (∀ row ∈ rows, rowOK c row) →
      loadRowsAux ⟨[c]⟩ 0 0 ((rows.map (fun r => (⟨rowChars [c] r⟩ : String))) ++ [""]) 0 acc =
        some (acc ++ rows, none) := by
  intro rows
  induction rows with
  | nil =>
    intro acc _
    rw [List.map_nil, List.nil_append, loadRowsAux_cons]
    rw [if_neg (by omega), if_pos (show goLen "" = 0 from rfl)]
    simp [loadRowsAux]
  | cons r rest ih =>
    intro acc h
    have hok := h r (by simp)
    obtain ⟨hcells, hne, hsingle, hlastcell⟩ := hok
    have hsplit : goSplitStr ⟨[c]⟩ ⟨rowChars [c] r⟩ = r := by
      unfold goSplitStr
      rw [show (⟨[c]⟩ : String).data = [c] from rfl]
      rw [show (⟨rowChars [c] r⟩ : String).data = rowChars [c] r from rfl]
      rw [goSplit_rowChars c r (fun s hs => (hcells s hs).1) hne]
      exact map_mk_data r
    have hlinene : ¬ goLen (⟨rowChars [c] r⟩ : String) = 0 := by
      intro h0
      exact rowChars_ne_nil hne hsingle (goLen_eq_zero.mp h0)
    have hrne : r ≠ [] := hne
    have hrlen : 1 ≤ r.length := List.length_pos.mpr hrne
    rw [List.map_cons, List.cons_append, loadRowsAux_cons]
    rw [if_neg (by omega), if_neg hlinene, hsplit]
    rw [if_neg (by omega)]
    rw [if_neg (by
      intro hcon
      have : (r.length : Int) ≤ 0 := hcon
      omega)]
    have hslice : goSliceFrom r (0 : Int) = some r := by
      unfold goSliceFrom
      rw [if_pos ⟨le_refl 0, by exact_mod_cast Nat.zero_le r.length⟩]
      rfl
    rw [hslice]
    simp only
    rw [ih (acc ++ [r]) (fun row hrow => h row (List.mem_cons_of_mem _ hrow))]
    simp

theorem sheetLines_safe (c : Char) (rows : List (List String)) (hc1 : c ≠ '\n')
    (hc2 : c ≠ '\r') (hrows : ∀ row ∈ rows, rowOK c row) :
    ∀ l ∈ rows.map (rowChars [c]), '\n' ∉ l ∧ l.getLast? ≠ some '\r' := by
  intro l hl
  obtain ⟨row, hrow, hre⟩ := List.mem_map.mp hl
  obtain ⟨hcells, hne, _, hlast⟩ := hrows row hrow
  rw [← hre]
  exact ⟨rowChars_no_nl hc1 (fun s hs => (hcells s hs).2),
    rowChars_getLast hne hlast hc2⟩

theorem sheet_roundtrip (sd : SpreadsheetDelim) (hsafe : SheetRTSafe sd) (b' : Int)
    (fname : String) (hf : ¬ goLen fname = 0) :
    (NewSpreadsheetDelim b' sd.delimeter).Load fname 0 0 (some (saveStringSheet sd)) =
      some (⟨b', fname, sd.delimeter, sd.Data⟩, none) := by
  obtain ⟨c, hd, hc1, hc2, hrows⟩ := hsafe
  have hdelim : sd.delimeter = ⟨[c]⟩ := string_ext hd
  have hsave : saveStringSheet sd =
      ⟨((sd.Data.map (rowChars [c])).map (fun l => l ++ ['\n'])).flatten⟩ := by
    apply string_ext
    rw [saveStringSheet_data, hd]
  have hlines : goLines (saveStringSheet sd) =
      (sd.Data.map (fun r => (⟨rowChars [c] r⟩ : String))) ++ [""] := by
    rw [hsave, goLines_join _ (sheetLines_safe c sd.Data hc1 hc2 hrows)]
    rw [List.map_map]
    rfl
  unfold SpreadsheetDelim.Load
  rw [if_neg hf]
  simp only
  show (match loadRowsAux (NewSpreadsheetDelim b' sd.delimeter).delimeter 0 0
      (goLines (saveStringSheet sd)) 0 (NewSpreadsheetDelim b' sd.delimeter).Data with
    | none => none
    | some r => some (({ NewSpreadsheetDelim b' sd.delimeter with
        Filename := fname, Data := r.1 } : SpreadsheetDelim), r.2)) =
    some (⟨b', fname, sd.delimeter, sd.Data⟩, none)
  rw [hlines]
  rw [show (NewSpreadsheetDelim b' sd.delimeter).delimeter = sd.delimeter from rfl, hdelim]
  rw [show (NewSpreadsheetDelim b' (⟨[c]⟩ : String)).Data = ([] : List (List String)) from rfl]
  rw [loadRows_saved hc1 hc2 sd.Data [] hrows]
  rfl

theorem Get_congr {sd1 sd2 : SpreadsheetDelim} (h : sd1.Data = sd2.Data) (row col : Int) :
    sd1.Get row col = sd2.Get row col := by
  unfold SpreadsheetDelim.Get
  rw [h]

theorem ini_roundtrip (si : SettingsINI) (hwf : INIWF si) (b' : Int) (fname : String)
    (hf : ¬ goLen fname = 0) :
    (NewSettingsINI b').Load fname (some (saveStringINI si)) =
      (⟨b', fname, reparsedHeaders si⟩, none) := by
  unfold SettingsINI.Load
  rw [if_neg hf]
  simp only
  rw [parse_saveString si hwf]
  rfl

/-! ### Characterization of the table load loop -/

theorem splitGo_zero (sep l : List Char) : splitGo sep l 0 = [l] := by
  cases l <;> rfl

theorem splitGo_ne_nil (sep : List Char) : ∀ (fuel : Nat) (l : List Char),
    splitGo sep l fuel ≠ [] := by
  intro fuel
  induction fuel with
  | zero =>
    intro l
    rw [splitGo_zero]
    simp
  | succ f ih =>
    intro l
    cases l with
    | nil => simp [splitGo]
    | cons x xs =>
      rw [splitGo_cons_succ]
      by_cases hpre : sep.isPrefixOf (x :: xs)
      · rw [if_pos hpre]
        simp
      · rw [if_neg hpre]
        rcases h : splitGo sep xs f with _ | ⟨r, rs⟩ <;> simp

theorem goSplitStr_ne_nil (d l : String) (hl : l.data ≠ []) : goSplitStr d l ≠ [] := by
  unfold goSplitStr goSplit
  by_cases hd : d.data = []
  · rw [if_pos hd]
    intro hcon
    rw [List.map_eq_nil, List.map_eq_nil] at hcon
    exact hl hcon
  · rw [if_neg hd]
    intro hcon
    rw [List.map_eq_nil] at hcon
    exact splitGo_ne_nil d.data l.data.length l.data hcon

theorem loadRowsAux_spec (d : String) (sc sr : Int) (hsc : 0 ≤ sc) :
    ∀ (lines : List String) (ctr : Int) (acc : List (List String)),
      loadRowsAux d sc sr lines ctr acc =
        some (acc ++ ((lines.drop (sr - ctr).toNat).filter
            (fun l => goLen l ≠ 0)).filterMap
          (fun l =>
            if ((goSplitStr d l).length : Int) ≤ sc then none
            else some ((goSplitStr d l).drop sc.toNat)), none) := by
  intro lines
  induction lines with
  | nil =>
    intro ctr acc
    simp [loadRowsAux]
  | cons l ls ih =>
    intro ctr acc
    rw [loadRowsAux_cons]
    by_cases hctr : ctr < sr
    · rw [if_pos hctr, ih]
      have hdrop : (sr - ctr).toNat = (sr - (ctr + 1)).toNat + 1 := by omega
      rw [hdrop, List.drop_succ_cons]
    · rw [if_neg hctr]
      have hdrop0 : (sr - ctr).toNat = 0 := by omega
      by_cases hlen : goLen l = 0
      · rw [if_pos hlen, ih, hdrop0]
        simp only [List.drop_zero]
        rw [List.filter_cons_of_neg (by simp [hlen])]
      · rw [if_neg hlen]
        have hsne : ¬ (goSplitStr d l).length = 0 := by
          intro h0
          apply goSplitStr_ne_nil d l (fun hd0 => hlen (by rw [goLen_eq_zero]; exact hd0))
          exact List.length_eq_zero.mp h0
        rw [if_neg hsne]
        by_cases hskip : ((goSplitStr d l).length : Int) ≤ sc
        · rw [if_pos hskip, ih, hdrop0]
          simp only [List.drop_zero]
          rw [List.filter_cons_of_pos (by simp [hlen]),
            List.filterMap_cons_none (by rw [if_pos hskip])]
        · rw [if_neg hskip]
          have hslice : goSliceFrom (goSplitStr d l) sc =
              some ((goSplitStr d l).drop sc.toNat) := by
            unfold goSliceFrom
            rw [if_pos ⟨hsc, by omega⟩]
          rw [hslice]
          simp only
          rw [ih, hdrop0]
          simp only [List.drop_zero]
          rw [List.filter_cons_of_pos (by simp [hlen]),
            List.filterMap_cons_some (by rw [if_neg hskip])]
          simp

theorem loadRowsAux_acc (d : String) (sc sr : Int) :
    ∀ (lines : List String) (ctr : Int) (acc : List (List String)),
      loadRowsAux d sc sr lines ctr acc =
        (loadRowsAux d sc sr lines ctr []).map (fun p => (acc ++ p.1, p.2)) := by
  intro lines
  induction lines with
  | nil =>
    intro ctr acc
    simp [loadRowsAux]
  | cons l ls ih =>
    intro ctr acc
    rw [loadRowsAux_cons, loadRowsAux_cons]
    by_cases h1 : ctr < sr
    · rw [if_pos h1, if_pos h1, ih]
    · rw [if_neg h1, if_neg h1]
      by_cases h2 : goLen l = 0
      · rw [if_pos h2, if_pos h2, ih]
      · rw [if_neg h2, if_neg h2]
        by_cases h3 : (goSplitStr d l).length = 0
        · rw [if_pos h3, if_pos h3]
          simp
        · rw [if_neg h3, if_neg h3]
          by_cases h4 : ((goSplitStr d l).length : Int) ≤ sc
          · rw [if_pos h4, if_pos h4, ih]
          · rw [if_neg h4, if_neg h4]
            rcases h5 : goSliceFrom (goSplitStr d l) sc with _ | cells
            · rfl
            · simp only
              rw [ih ctr (acc ++ [cells]), ih ctr ([] ++ [cells])]
              rcases h6 : loadRowsAux d sc sr ls ctr [] with _ | p
              · rfl
              · simp

/-! ### Failed parses keep the prefix state -/

theorem parseINI_nil (hs : List (String × Pairs)) (cur : Option String) :
    parseINI [] hs cur = (hs, none) := rfl

theorem parseINI_cons (l : String) (ls : List String) (hs : List (String × Pairs))
    (cur : Option String) :
    parseINI (l :: ls) hs cur =
      match processINILine hs cur l with
      | Except.error e => (hs, some e)
      | Except.ok s => parseINI ls s.1 s.2 := by
  rcases hp : processINILine hs cur l with e | s
  · simp [parseINI, hp]
  · simp [parseINI, hp]

theorem parseINI_prefix :
    ∀ (lines : List String) (hs : List (String × Pairs)) (cur : Option String)
      (hs' : List (String × Pairs)) (e : Error),
      parseINI lines hs cur = (hs', some e) →
      ∃ nn, nn ≤ lines.length ∧ parseINI (lines.take nn) hs cur = (hs', none) := by
  intro lines
  induction lines with
  | nil =>
    intro hs cur hs' e h
    rw [parseINI_nil] at h
    exact absurd (congrArg Prod.snd h) (by simp)
  | cons l ls ih =>
    intro hs cur hs' e h
    rw [parseINI_cons] at h
    rcases hp : processINILine hs cur l with e' | s
    · rw [hp] at h
      simp only at h
      have h1 : hs = hs' := congrArg Prod.fst h
      refine ⟨0, by simp, ?_⟩
      rw [List.take_zero, parseINI_nil, h1]
    · rw [hp] at h
      simp only at h
      obtain ⟨nn, hle, heq⟩ := ih s.1 s.2 hs' e h
      refine ⟨nn + 1, by simp; omega, ?_⟩
      rw [List.take_succ_cons, parseINI_cons, hp]
      simp only
      rw [heq]

/-! ### `Set` extends and assigns -/

theorem get?_replicate {α : Type} (a : α) (m i : Nat) :
    (List.replicate m a).get? i = if i < m then some a else none := by
  rw [List.get?_eq_getElem?, List.getElem?_replicate]

theorem get?_exists {α : Type} {l : List α} {n : Nat} (h : n < l.length) :
    ∃ x, l.get? n = some x := by
  rw [List.get?_eq_get h]
  exact ⟨_, rfl⟩

theorem get?_set_self {α : Type} {l : List α} {n : Nat} (h : n < l.length) (a : α) :
    (l.set n a).get? n = some a := by
  rw [List.get?_set_eq]
  obtain ⟨x, hx⟩ := get?_exists h
  rw [hx]
  rfl

theorem Get_char {sd : SpreadsheetDelim} {rr cc : Int} (hrr : 0 ≤ rr) (hcc : 0 ≤ cc) :
    sd.Get rr cc =
      match sd.Data.get? rr.toNat with
      | none => some ("", false)
      | some rowL =>
        match rowL.get? cc.toNat with
        | none => some ("", false)
        | some v => some (v, true) := by
  unfold SpreadsheetDelim.Get goIndex
  by_cases h1 : (sd.Data.length : Int) ≤ rr
  · rw [if_pos h1]
    have h2 : sd.Data.get? rr.toNat = none := by
      rw [List.get?_eq_none]
      omega
    rw [h2]
  · rw [if_neg h1, if_pos hrr]
    have hlt : rr.toNat < sd.Data.length := by omega
    obtain ⟨rowL, hrow⟩ := get?_exists hlt
    rw [hrow]
    simp only
    by_cases h2 : (rowL.length : Int) ≤ cc
    · rw [if_pos h2]
      have h3 : rowL.get? cc.toNat = none := by
        rw [List.get?_eq_none]
        omega
      rw [h3]
    · rw [if_neg h2, if_pos hcc]
      have hlt2 : cc.toNat < rowL.length := by omega
      obtain ⟨v, hv⟩ := get?_exists hlt2
      rw [hv]

theorem Set_eq (sd : SpreadsheetDelim) (row col : Int) (v : String)
    (hr : 0 ≤ row) (hc : 0 ≤ col) :
    ∃ r, (sd.Data ++ List.replicate (row + 1 - (sd.Data.length : Int)).toNat []).get?
        row.toNat = some r ∧
      sd.Set row col v = some { sd with Data :=
        ((sd.Data ++ List.replicate (row + 1 - (sd.Data.length : Int)).toNat []).set row.toNat
          ((r ++ List.replicate (col + 1 - (r.length : Int)).toNat "").set col.toNat v)) } := by
  have hdlen : (sd.Data ++ List.replicate (row + 1 - (sd.Data.length : Int)).toNat []).length =
      sd.Data.length + (row + 1 - (sd.Data.length : Int)).toNat := by
    rw [List.length_append, List.length_replicate]
  have hrowlt : row.toNat <
      (sd.Data ++ List.replicate (row + 1 - (sd.Data.length : Int)).toNat []).length := by
    rw [hdlen]
    omega
  obtain ⟨r, hrq⟩ := get?_exists hrowlt
  refine ⟨r, hrq, ?_⟩
  have hgi1 : goIndex (sd.Data ++ List.replicate (row + 1 - (sd.Data.length : Int)).toNat [])
      row = some r := by
    unfold goIndex
    rw [if_pos hr]
    exact hrq
  have hcollt : col.toNat <
      (r ++ List.replicate (col + 1 - (r.length : Int)).toNat "").length := by
    rw [List.length_append, List.length_replicate]
    omega
  obtain ⟨w, hwq⟩ := get?_exists hcollt
  have hgi2 : goIndex (r ++ List.replicate (col + 1 - (r.length : Int)).toNat "") col =
      some w := by
    unfold goIndex
    rw [if_pos hc]
    exact hwq
  show (match goIndex (sd.Data ++ List.replicate (row + 1 - (sd.Data.length : Int)).toNat [])
      row with
    | none => none
    | some r =>
      match goIndex (r ++ List.replicate (col + 1 - (r.length : Int)).toNat "") col with
      | none => none
      | some _ => some { sd with Data :=
          ((sd.Data ++ List.replicate (row + 1 - (sd.Data.length : Int)).toNat []).set row.toNat
            ((r ++ List.replicate (col + 1 - (r.length : Int)).toNat "").set col.toNat v)) }) = _
  rw [hgi1]
  simp only
  rw [hgi2]

theorem Set_spec (sd : SpreadsheetDelim) (row col : Int) (v : String)
    (hr : 0 ≤ row) (hc : 0 ≤ col) :
    ∃ sd', sd.Set row col v = some sd' ∧
      row + 1 ≤ (sd'.Data.length : Int) ∧
      (∃ tr, sd'.Data.get? row.toNat = some tr ∧ col + 1 ≤ (tr.length : Int)) ∧
      sd'.Get row col = some (v, true) ∧
      (∀ rr cc : Int, 0 ≤ rr → 0 ≤ cc → ¬(rr = row ∧ cc = col) →
        (∀ p, sd.Get rr cc = some (p, true) → sd'.Get rr cc = some (p, true)) ∧
        (sd.Get rr cc = some ("", false) →
          sd'.Get rr cc = some ("", false) ∨ sd'.Get rr cc = some ("", true))) := by
  obtain ⟨r, hrq, hset⟩ := Set_eq sd row col v hr hc
  have hdlen : (sd.Data ++ List.replicate (row + 1 - (sd.Data.length : Int)).toNat []).length =
      sd.Data.length + (row + 1 - (sd.Data.length : Int)).toNat := by
    rw [List.length_append, List.length_replicate]
  have hrowlt : row.toNat <
      (sd.Data ++ List.replicate (row + 1 - (sd.Data.length : Int)).toNat []).length := by
    rw [hdlen]
    omega
  have hr'len : (r ++ List.replicate (col + 1 - (r.length : Int)).toNat "").length =
      r.length + (col + 1 - (r.length : Int)).toNat := by
    rw [List.length_append, List.length_replicate]
  have hcollt : col.toNat <
      (r ++ List.replicate (col + 1 - (r.length : Int)).toNat "").length := by
    rw [hr'len]
    omega
  refine ⟨_, hset, ?_, ?_, ?_, ?_⟩
  · show row + 1 ≤ (((sd.Data ++ _).set row.toNat _).length : Int)
    rw [List.length_set, hdlen]
    omega
  · refine ⟨(r ++ List.replicate (col + 1 - (r.length : Int)).toNat "").set col.toNat v,
      get?_set_self hrowlt _, ?_⟩
    rw [List.length_set, hr'len]
    omega
  · rw [Get_char hr hc]
    show (match ((sd.Data ++ _).set row.toNat _).get? row.toNat with
      | none => some ("", false)
      | some rowL =>
        match rowL.get? col.toNat with
        | none => some ("", false)
        | some v => some (v, true)) = some (v, true)
    rw [get?_set_self hrowlt]
    simp only
    rw [get?_set_self hcollt]
  · intro rr cc hrr0 hcc0 hne
    have hGet' : ∀ X, ({ sd with Data :=
        ((sd.Data ++ List.replicate (row + 1 - (sd.Data.length : Int)).toNat []).set
          row.toNat X) } : SpreadsheetDelim).Get rr cc =
        match ((sd.Data ++ List.replicate (row + 1 - (sd.Data.length : Int)).toNat []).set
            row.toNat X).get? rr.toNat with
        | none => some ("", false)
        | some rowL =>
          match rowL.get? cc.toNat with
          | none => some ("", false)
          | some w => some (w, true) := fun X => Get_char hrr0 hcc0
    by_cases hjr : rr.toNat = row.toNat
    · have hrr : rr = row := by omega
      have hcc : ¬ cc = col := fun hcon => hne ⟨hrr, hcon⟩
      have hkc : cc.toNat ≠ col.toNat := by omega
      constructor
      · intro p hget
        rw [Get_char hrr0 hcc0] at hget
        rcases hrowq : sd.Data.get? rr.toNat with _ | rowL
        · rw [hrowq] at hget
          simp at hget
        · rw [hrowq] at hget
          simp only at hget
          rcases hcellq : rowL.get? cc.toNat with _ | w
          · rw [hcellq] at hget
            simp at hget
          · rw [hcellq] at hget
            simp at hget
            rw [hGet']
            have hrlen : rr.toNat < sd.Data.length := by
              obtain ⟨h0, -⟩ := List.get?_eq_some.mp hrowq
              omega
            have hreq : r = rowL := by
              have h1 : (sd.Data ++ List.replicate (row + 1 -
                  (sd.Data.length : Int)).toNat []).get? row.toNat = sd.Data.get? row.toNat :=
                List.get?_append (by omega)
              rw [h1, ← hjr, hrowq] at hrq
              exact (Option.some.inj hrq).symm
            rw [hjr, get?_set_self hrowlt]
            simp only
            rw [List.get?_set_ne _ _ (fun hcon => hkc hcon.symm)]
            have hklen : cc.toNat < rowL.length := by
              obtain ⟨h0, -⟩ := List.get?_eq_some.mp hcellq
              omega
            rw [List.get?_append (by rw [hreq]; omega), hreq, hcellq]
            simp only
            rw [hget]
      · intro hget
        rw [Get_char hrr0 hcc0] at hget
        rcases hrowq : sd.Data.get? rr.toNat with _ | rowL
        · -- the target row was out of bounds: r is a padding row, so r = []
          have hrlen : sd.Data.length ≤ rr.toNat := by
            have := List.get?_eq_none.mp hrowq
            omega
          have hreq : r = [] := by
            have h1 : (sd.Data ++ List.replicate (row + 1 -
                (sd.Data.length : Int)).toNat []).get? row.toNat =
                (List.replicate (row + 1 - (sd.Data.length : Int)).toNat
                  ([] : List String)).get? (row.toNat - sd.Data.length) :=
              List.get?_append_right (by omega)
            rw [h1, get?_replicate, if_pos (by rw [hdlen] at hrowlt; omega)] at hrq
            exact (Option.some.inj hrq).symm
          rw [hGet', hjr, get?_set_self hrowlt]
          simp only
          rw [List.get?_set_ne _ _ (fun hcon => hkc hcon.symm)]
          by_cases hklt : cc.toNat <
              (r ++ List.replicate (col + 1 - (r.length : Int)).toNat "").length
          · obtain ⟨w, hw⟩ := get?_exists hklt
            have hwv : w = "" := by
              have h2 : (r ++ List.replicate (col + 1 - (r.length : Int)).toNat "").get?
                  cc.toNat = (List.replicate (col + 1 - (r.length : Int)).toNat "").get?
                    (cc.toNat - r.length) :=
                List.get?_append_right (by rw [hreq]; simp)
              rw [h2, get?_replicate] at hw
              by_cases hin : cc.toNat - r.length < (col + 1 - (r.length : Int)).toNat
              · rw [if_pos hin] at hw
                exact (Option.some.inj hw).symm
              · rw [if_neg hin] at hw
                exact absurd hw (by simp)
            rw [hw, hwv]
            right
            rfl
          · have hw : (r ++ List.replicate (col + 1 - (r.length : Int)).toNat "").get?
                cc.toNat = none := by
              rw [List.get?_eq_none]
              omega
            rw [hw]
            left
            rfl
        · rw [hrowq] at hget
          simp only at hget
          rcases hcellq : rowL.get? cc.toNat with _ | w
          · -- the cell was out of bounds of an existing row
            have hrlen : rr.toNat < sd.Data.length := by
              obtain ⟨h0, -⟩ := List.get?_eq_some.mp hrowq
              omega
            have hreq : r = rowL := by
              have h1 : (sd.Data ++ List.replicate (row + 1 -
                  (sd.Data.length : Int)).toNat []).get? row.toNat = sd.Data.get? row.toNat :=
                List.get?_append (by omega)
              rw [h1, ← hjr, hrowq] at hrq
              exact (Option.some.inj hrq).symm
            have hklen : rowL.length ≤ cc.toNat := by
              have := List.get?_eq_none.mp hcellq
              omega
            rw [hGet', hjr, get?_set_self hrowlt]
            simp only
            rw [List.get?_set_ne _ _ (fun hcon => hkc hcon.symm)]
            by_cases hklt : cc.toNat <
                (r ++ List.replicate (col + 1 - (r.length : Int)).toNat "").length
            · obtain ⟨w, hw⟩ := get?_exists hklt
              have hwv : w = "" := by
                have h2 : (r ++ List.replicate (col + 1 - (r.length : Int)).toNat "").get?
                    cc.toNat = (List.replicate (col + 1 - (r.length : Int)).toNat "").get?
                      (cc.toNat - r.length) :=
                  List.get?_append_right (by rw [hreq]; omega)
                rw [h2, get?_replicate] at hw
                by_cases hin : cc.toNat - r.length < (col + 1 - (r.length : Int)).toNat
                · rw [if_pos hin] at hw
                  exact (Option.some.inj hw).symm
                · rw [if_neg hin] at hw
                  exact absurd hw (by simp)
              rw [hw, hwv]
              right
              rfl
            · have hw : (r ++ List.replicate (col + 1 - (r.length : Int)).toNat "").get?
                  cc.toNat = none := by
                rw [List.get?_eq_none]
                omega
              rw [hw]
              left
              rfl
          · rw [hcellq] at hget
            simp at hget
    · -- a different row: untouched by the update
      have hsame : ((sd.Data ++ List.replicate (row + 1 - (sd.Data.length : Int)).toNat
          []).set row.toNat ((r ++ List.replicate (col + 1 -
            (r.length : Int)).toNat "").set col.toNat v)).get? rr.toNat =
          (sd.Data ++ List.replicate (row + 1 -
            (sd.Data.length : Int)).toNat []).get? rr.toNat :=
        List.get?_set_ne _ _ (fun hcon => hjr hcon.symm)
      constructor
      · intro p hget
        rw [Get_char hrr0 hcc0] at hget
        rcases hrowq : sd.Data.get? rr.toNat with _ | rowL
        · rw [hrowq] at hget
          simp at hget
        · rw [hrowq] at hget
          simp only at hget
          rcases hcellq : rowL.get? cc.toNat with _ | w
          · rw [hcellq] at hget
            simp at hget
          · rw [hcellq] at hget
            simp at hget
            have hrlen : rr.toNat < sd.Data.length := by
              obtain ⟨h0, -⟩ := List.get?_eq_some.mp hrowq
              omega
            rw [hGet', hsame, List.get?_append hrlen, hrowq]
            simp only
            rw [hcellq]
            simp only
            rw [hget]
      · intro hget
        rw [Get_char hrr0 hcc0] at hget
        rcases hrowq : sd.Data.get? rr.toNat with _ | rowL
        · have hrlen : sd.Data.length ≤ rr.toNat := by
            have := List.get?_eq_none.mp hrowq
            omega
          rw [hGet', hsame]
          by_cases hjlt : rr.toNat <
              (sd.Data ++ List.replicate (row + 1 - (sd.Data.length : Int)).toNat []).length
          · have h1 : (sd.Data ++ List.replicate (row + 1 -
                (sd.Data.length : Int)).toNat []).get? rr.toNat =
                (List.replicate (row + 1 - (sd.Data.length : Int)).toNat
                  ([] : List String)).get? (rr.toNat - sd.Data.length) :=
              List.get?_append_right (by omega)
            rw [h1, get?_replicate, if_pos (by rw [hdlen] at hjlt; omega)]
            simp only
            left
            rfl
          · have h1 : (sd.Data ++ List.replicate (row + 1 -
                (sd.Data.length : Int)).toNat []).get? rr.toNat = none := by
              rw [List.get?_eq_none]
              omega
            rw [h1]
            left
            rfl
        · rw [hrowq] at hget
          simp only at hget
          rcases hcellq : rowL.get? cc.toNat with _ | w
          · have hrlen : rr.toNat < sd.Data.length := by
              obtain ⟨h0, -⟩ := List.get?_eq_some.mp hrowq
              omega
            rw [hGet', hsame, List.get?_append hrlen, hrowq]
            simp only
            rw [hcellq]
            left
            rfl
          · rw [hcellq] at hget
            simp at hget

/-! ### The parse loop preserves the key/value invariant -/

theorem goodHeaders_nil : goodHeaders [] :=
  fun p hp => absurd hp (List.not_mem_nil p)

theorem goodHeaders_mapInsert_nil {hs : List (String × Pairs)} {k : String}
    (hg : goodHeaders hs) (hk : k ≠ "" → goLen k ≠ 0) :
    goodHeaders (mapInsert hs k []) := by
  intro p hp
  rcases mem_mapInsert p hp with h | h
  · subst h
    exact ⟨hk, fun q hq => absurd hq (List.not_mem_nil q)⟩
  · exact hg p h

theorem goodHeaders_mapAdjust {hs : List (String × Pairs)} {c n v : String}
    (hg : goodHeaders hs) (hn1 : goLen n ≠ 0) (hn2 : goTrim n = n)
    (hv1 : goLen v ≠ 0) (hv2 : goTrim v = v) :
    goodHeaders (mapAdjust hs c n v) := by
  intro p hp
  rcases mem_mapAdjust p hp with h | ⟨vs, hvs, hpe⟩
  · exact hg p h
  · subst hpe
    refine ⟨(hg (c, vs) hvs).1, ?_⟩
    intro q hq
    rcases mem_mapInsert q hq with h | h
    · subst h
      exact ⟨hn1, hn2, hv1, hv2⟩
    · exact (hg (c, vs) hvs).2 q h

theorem goodHeaders_processINILine {hs : List (String × Pairs)} {cur : Option String}
    {raw : String} {s : List (String × Pairs) × Option String}
    (h : processINILine hs cur raw = Except.ok s) (hg : goodHeaders hs) :
    goodHeaders s.1 := by
  simp only [processINILine] at h
  split at h
  · cases h
    exact hg
  · split at h
    · split at h
      · cases h
        exact hg
      · split at h
        · split at h
          · split at h
            · exact absurd h (by simp)
            · split at h
              · exact absurd h (by simp)
              · next hname _ =>
                cases h
                exact goodHeaders_mapInsert_nil hg (fun _ => hname)
          · exact absurd h (by simp)
        · split at h
          · exact absurd h (by simp)
          · next i _ =>
            split at h
            · exact absurd h (by simp)
            · split at h
              · exact absurd h (by simp)
              · next hn hv =>
                split at h
                · cases h
                  exact goodHeaders_mapAdjust
                    (goodHeaders_mapInsert_nil hg (fun hne => absurd rfl hne))
                    hn (goTrim_goTrim _) hv (goTrim_goTrim _)
                · cases h
                  exact goodHeaders_mapAdjust hg
                    hn (goTrim_goTrim _) hv (goTrim_goTrim _)
    · cases h
      exact hg

theorem goodHeaders_parseINI : ∀ (lines : List String) (hs : List (String × Pairs))
    (cur : Option String), goodHeaders hs → goodHeaders (parseINI lines hs cur).1 := by
  intro lines
  induction lines with
  | nil =>
    intro hs cur hg
    rw [parseINI_nil]
    exact hg
  | cons l ls ih =>
    intro hs cur hg
    rw [parseINI_cons]
    rcases hp : processINILine hs cur l with e | s
    · exact hg
    · exact ih s.1 s.2 (goodHeaders_processINILine hp hg)

/-! ### A successful table load appends the parsed rows -/

theorem Load_appends_of_filename (sd : SpreadsheetDelim) (f content : String)
    (sc sr : Int) (hsc : 0 ≤ sc) (hf : ¬ goLen f = 0) :
    sd.Load f sc sr (some content) =
      some ({ sd with Filename := f,
                      Data := (sd.Data ++ parsedRows sd.delimeter sc sr content) },
        none) := by
  unfold SpreadsheetDelim.Load
  rw [if_neg hf]
  simp only
  rw [loadRowsAux_spec sd.delimeter sc sr hsc (goLines content) 0 sd.Data]
  simp only
  unfold parsedRows
  rw [Int.sub_zero]

theorem Load_appends_remembered (sd : SpreadsheetDelim) (f content : String)
    (sc sr : Int) (hsc : 0 ≤ sc) (hf : goLen f = 0) (hrem : ¬ goLen sd.Filename = 0) :
    sd.Load f sc sr (some content) =
      some ({ sd with
              Data := (sd.Data ++ parsedRows sd.delimeter sc sr content) }, none) := by
  unfold SpreadsheetDelim.Load
  rw [if_pos hf, if_neg hrem]
  simp only
  rw [loadRowsAux_spec sd.delimeter sc sr hsc (goLines content) 0 sd.Data]
  simp only
  unfold parsedRows
  rw [Int.sub_zero]

/-! ### The claims -/

/-- C6: refuted (code bug). `SpreadsheetDelim.Get` only checks `row >= len(sd.Data)`
and `col >= len(row)`, so a negative `row` or `col` passes the bound checks and the
subsequent index expression panics (modelled as `none`) instead of returning
`("", false)` as the claim and the function's own documentation state; a
non-negative out-of-bounds index does return `("", false)`. -/
theorem C6_get_negative_panics :
    SpreadsheetDelim.Get ⟨0, "", ",", [["a"]]⟩ (-1) 0 = none ∧
    SpreadsheetDelim.Get ⟨0, "", ",", [["a"]]⟩ 0 (-1) = none ∧
    SpreadsheetDelim.Get ⟨0, "", ",", [["a"]]⟩ 5 0 = some ("", false) ∧
    SpreadsheetDelim.Get ⟨0, "", ",", [["a"]]⟩ 0 5 = some ("", false) := by
  decide

/-- C7 (amended: for non-negative `row` and `col`; a negative index panics, see the
counterexample): after `Set(row, col, v)` the table has at least `row+1` rows, the
target row has at least `col+1` cells, cell `(row, col)` holds `v`, every
pre-existing cell is unchanged and every newly created cell other than the target
reads as the empty string; `Set` returns no error. -/
theorem C7_set_extends (sd : SpreadsheetDelim) (row col : Int) (v : String)
    (hr : 0 ≤ row) (hc : 0 ≤ col) :
    ∃ sd', sd.Set row col v = some sd' ∧
      row + 1 ≤ (sd'.Data.length : Int) ∧
      (∃ tr, sd'.Data.get? row.toNat = some tr ∧ col + 1 ≤ (tr.length : Int)) ∧
      sd'.Get row col = some (v, true) ∧
      (∀ rr cc : Int, 0 ≤ rr → 0 ≤ cc → ¬(rr = row ∧ cc = col) →
        (∀ p, sd.Get rr cc = some (p, true) → sd'.Get rr cc = some (p, true)) ∧
        (sd.Get rr cc = some ("", false) →
          sd'.Get rr cc = some ("", false) ∨ sd'.Get rr cc = some ("", true))) :=
  Set_spec sd row col v hr hc

/-- Witness for C7: `Set 1 2 "v"` on the one-row table `[["a"]]`. -/
theorem C7_witness :
    ∃ sd', SpreadsheetDelim.Set ⟨0, "", ",", [["a"]]⟩ 1 2 "v" = some sd' ∧
      (1 : Int) + 1 ≤ (sd'.Data.length : Int) ∧
      (∃ tr, sd'.Data.get? (1 : Int).toNat = some tr ∧ (2 : Int) + 1 ≤ (tr.length : Int)) ∧
      sd'.Get 1 2 = some ("v", true) ∧
      (∀ rr cc : Int, 0 ≤ rr → 0 ≤ cc → ¬(rr = 1 ∧ cc = 2) →
        (∀ p, SpreadsheetDelim.Get ⟨0, "", ",", [["a"]]⟩ rr cc = some (p, true) →
          sd'.Get rr cc = some (p, true)) ∧
        (SpreadsheetDelim.Get ⟨0, "", ",", [["a"]]⟩ rr cc = some ("", false) →
          sd'.Get rr cc = some ("", false) ∨ sd'.Get rr cc = some ("", true))) :=
  C7_set_extends ⟨0, "", ",", [["a"]]⟩ 1 2 "v" (by decide) (by decide)

/-- Counterexample for C7 as claimed for every `row`, `col`: a negative index
makes `Set` panic (`none`) instead of extending the table. -/
theorem C7_counterexample :
    SpreadsheetDelim.Set ⟨0, "", ",", [["a"]]⟩ (-1) 0 "v" = none ∧
    SpreadsheetDelim.Set ⟨0, "", ",", [["a"]]⟩ 0 (-1) "v" = none := by
  decide

/-- C8: `Add` on an existing `(header, name)` pair fails with `ErrorTypeExists` and
leaves the store unchanged; `Set` fails with `ErrorTypeNotFound` when the header is
absent, or when the name is absent in the header, and leaves the store unchanged;
otherwise `Add` inserts (creating the header when absent) and `Set` overwrites, and
the new value is observable via `Get`. -/
theorem C8_add_set (si : SettingsINI) (h n v : String) :
    (∀ vs, mapFind si.Headers h = some vs → mapMem vs n = true →
      si.Add h n v = (si, some ⟨ErrorType.Exists, "SettingsINI",
        "Value pair already exists in the specified header"⟩)) ∧
    (mapFind si.Headers h = none → si.Set h n v = (si, some ⟨ErrorType.NotFound,
      "SettingsINI", "Could not find header while setting value"⟩)) ∧
    (∀ vs, mapFind si.Headers h = some vs → mapMem vs n = false →
      si.Set h n v = (si, some ⟨ErrorType.NotFound, "SettingsINI",
        "Could not find value pair while setting value"⟩)) ∧
    (si.ValueExists h n = false →
      (si.Add h n v).2 = none ∧ (si.Add h n v).1.Get h n = (v, true)) ∧
    (si.ValueExists h n = true →
      (si.Set h n v).2 = none ∧ (si.Set h n v).1.Get h n = (v, true)) := by
  have hget : ∀ (b : Int) (f : String) (hs : List (String × Pairs)) (ps : Pairs),
      mapFind hs h = some ps → mapFind ps n = some v →
      SettingsINI.Get ⟨b, f, hs⟩ h n = (v, true) := by
    intro b f hs ps h1 h2
    unfold SettingsINI.Get
    simp only
    rw [h1]
    simp only
    rw [h2]
  refine ⟨?_, ?_, ?_, ?_, ?_⟩
  · intro vs hfind hmem
    unfold SettingsINI.Add
    rw [hfind]
    simp only
    rw [if_pos hmem]
  · intro hfind
    unfold SettingsINI.Set
    rw [hfind]
  · intro vs hfind hmem
    unfold SettingsINI.Set
    rw [hfind]
    simp only
    rw [if_neg (by rw [hmem]; exact Bool.false_ne_true)]
  · intro hex
    unfold SettingsINI.ValueExists at hex
    rcases hfind : mapFind si.Headers h with _ | vs
    · have hadd : si.Add h n v = ({ si with Headers := (mapInsert
          (mapInsert si.Headers h []) h [(n, v)]) }, none) := by
        unfold SettingsINI.Add
        rw [hfind]
      rw [hadd]
      refine ⟨rfl, ?_⟩
      refine hget si.buffer si.Filename _ [(n, v)] (mapFind_mapInsert_self _ _ _) ?_
      simp [mapFind]
    · rw [hfind] at hex
      simp only at hex
      have hadd : si.Add h n v = ({ si with Headers := (mapInsert
          si.Headers h (mapInsert vs n v)) }, none) := by
        unfold SettingsINI.Add
        rw [hfind]
        simp only
        rw [if_neg (by rw [hex]; exact Bool.false_ne_true)]
      rw [hadd]
      exact ⟨rfl, hget si.buffer si.Filename _ (mapInsert vs n v)
        (mapFind_mapInsert_self _ _ _) (mapFind_mapInsert_self _ _ _)⟩
  · intro hex
    unfold SettingsINI.ValueExists at hex
    rcases hfind : mapFind si.Headers h with _ | vs
    · rw [hfind] at hex
      exact absurd hex Bool.false_ne_true
    · rw [hfind] at hex
      simp only at hex
      have hset : si.Set h n v = ({ si with Headers := (mapInsert
          si.Headers h (mapInsert vs n v)) }, none) := by
        unfold SettingsINI.Set
        rw [hfind]
        simp only
        rw [if_pos hex]
      rw [hset]
      exact ⟨rfl, hget si.buffer si.Filename _ (mapInsert vs n v)
        (mapFind_mapInsert_self _ _ _) (mapFind_mapInsert_self _ _ _)⟩

/-- C9: the `SpreadsheetDelim.Load` line processing (here for a non-negative
`skipCols`; a negative one panics on the slice): the first `skipRows` lines
read are discarded whatever their content, each remaining empty line is
skipped, each remaining non-empty line is split on the delimiter, dropped
entirely when the split yields at most `skipCols` cells, and otherwise
appended as a new row of the cells from index `skipCols` on. In particular
`"a,b,c\n1,2\n"` with delimiter `","`, `skipCols = 1`, `skipRows = 0` yields
exactly the rows `["b", "c"]` and `["2"]`. -/
theorem C9_sheet_load_lines (sd : SpreadsheetDelim) (f content : String)
    (sc sr b : Int) (hsc : 0 ≤ sc) (hf : ¬ goLen f = 0) :
    sd.Load f sc sr (some content) =
      some ({ sd with Filename := f,
                      Data := (sd.Data ++ parsedRows sd.delimeter sc sr content) },
        none) ∧
    (NewSpreadsheetDelim b ",").Load "f" 1 0 (some "a,b,c\n1,2\n") =
      some (⟨b, "f", ",", [["b", "c"], ["2"]]⟩, none) := by
  refine ⟨Load_appends_of_filename sd f content sc sr hsc hf, ?_⟩
  rw [Load_appends_of_filename (NewSpreadsheetDelim b ",") "f" "a,b,c\n1,2\n" 1 0
    (by decide) (by decide)]
  rfl

/-- Witness for C9: a two-row table, semicolon delimiter, one line appended. -/
theorem C9_witness :
    SpreadsheetDelim.Load ⟨5, "", ";", [["z"]]⟩ "g" 0 0 (some "p;q\n") =
      some ((⟨5, "g", ";", [["z"]] ++ parsedRows ";" 0 0 "p;q\n"⟩ : SpreadsheetDelim),
        none) ∧
    (NewSpreadsheetDelim 7 ",").Load "f" 1 0 (some "a,b,c\n1,2\n") =
      some (⟨7, "f", ",", [["b", "c"], ["2"]]⟩, none) :=
  C9_sheet_load_lines ⟨5, "", ";", [["z"]]⟩ "g" "p;q\n" 0 0 7 (by decide) (by decide)

/-- C3 (amended): a successful `SpreadsheetDelim.Load` does not replace the table
wholesale; it APPENDS the rows parsed from the file to the rows already in
`sd.Data`, which remain in place as a prefix. -/
theorem C3_load_appends (sd : SpreadsheetDelim) (f content : String) (sc sr : Int)
    (sd' : SpreadsheetDelim) (hsc : 0 ≤ sc)
    (h : sd.Load f sc sr (some content) = some (sd', none)) :
    sd'.Data = sd.Data ++ parsedRows sd.delimeter sc sr content ∧
    sd'.Data.take sd.Data.length = sd.Data := by
  have hdata : sd'.Data = sd.Data ++ parsedRows sd.delimeter sc sr content := by
    by_cases hf : goLen f = 0
    · by_cases hrem : goLen sd.Filename = 0
      · unfold SpreadsheetDelim.Load at h
        rw [if_pos hf, if_pos hrem] at h
        exact absurd (congrArg (fun o => Option.map (fun p => p.2) o) h) (by simp)
      · rw [Load_appends_remembered sd f content sc sr hsc hf hrem] at h
        have h2 := Option.some.inj h
        exact (congrArg (fun p => p.1.Data) h2).symm
    · rw [Load_appends_of_filename sd f content sc sr hsc hf] at h
      have h2 := Option.some.inj h
      exact (congrArg (fun p => p.1.Data) h2).symm
  refine ⟨hdata, ?_⟩
  rw [hdata, List.take_left]

/-- Witness for C3: loading one line into a table that already holds `[["a"]]`. -/
theorem C3_witness :
    (⟨0, "f", ",", [["a"], ["x"]]⟩ : SpreadsheetDelim).Data =
      [["a"]] ++ parsedRows "," 0 0 "x\n" ∧
    (⟨0, "f", ",", [["a"], ["x"]]⟩ : SpreadsheetDelim).Data.take
      ([["a"]] : List (List String)).length = [["a"]] :=
  C3_load_appends ⟨0, "", ",", [["a"]]⟩ "f" "x\n" 0 0 ⟨0, "f", ",", [["a"], ["x"]]⟩
    (by decide) (by decide)

/-- Counterexample for C3 as claimed: after a successful `Load` onto a table that
already held `[["a"]]`, the pre-Load row is still there — the table was not
replaced wholesale. -/
theorem C3_counterexample :
    ∃ sd', SpreadsheetDelim.Load ⟨0, "", ",", [["a"]]⟩ "f" 0 0 (some "x\n") =
        some (sd', none) ∧ sd'.Data = [["a"], ["x"]] ∧ sd'.Get 0 0 = some ("a", true) :=
  ⟨⟨0, "f", ",", [["a"], ["x"]]⟩, by decide⟩

/-- C5 (amended): `Load` with a non-empty filename records it in the store, but
`Save` NEVER updates the remembered filename (the store it returns is the store
it was given); an empty filename argument makes `Save` fall back to the
remembered filename when one exists and fail with `ErrorTypeInvalidArgument`
when none does. -/
theorem C5_filename_memory (si : SettingsINI) (sd : SpreadsheetDelim) (f : String)
    (fc : Option String) (sc sr : Int) :
    ((si.Save f).1 = si ∧ (sd.Save f).1 = sd) ∧
    (¬ goLen f = 0 → (si.Load f fc).1.Filename = f ∧
      ∀ p ∈ sd.Load f sc sr fc, p.1.Filename = f) ∧
    (goLen f = 0 ∧ goLen si.Filename = 0 →
      si.Save f = (si, none, some ⟨ErrorType.InvalidArgument, "SettingsINI",
        "Internal and argument filenames are empty"⟩)) ∧
    (goLen f = 0 ∧ ¬ goLen si.Filename = 0 →
      (si.Save f).2.1 = some (si.Filename, saveStringINI si)) ∧
    (goLen f = 0 ∧ goLen sd.Filename = 0 →
      sd.Save f = (sd, none, some ⟨ErrorType.InvalidArgument, "SpreadsheetDelim",
        "No filename specified to save"⟩)) ∧
    (goLen f = 0 ∧ ¬ goLen sd.Filename = 0 →
      (sd.Save f).2.1 = some (sd.Filename, saveStringSheet sd)) := by
  refine ⟨⟨?_, ?_⟩, ?_, ?_, ?_, ?_, ?_⟩
  · unfold SettingsINI.Save
    by_cases hf : goLen f = 0
    · rw [if_pos hf]
      by_cases hrem : goLen si.Filename = 0
      · rw [if_pos hrem]
      · rw [if_neg hrem]
    · rw [if_neg hf]
  · unfold SpreadsheetDelim.Save
    by_cases hf : goLen f = 0
    · rw [if_pos hf]
      by_cases hrem : goLen sd.Filename = 0
      · rw [if_pos hrem]
      · rw [if_neg hrem]
    · rw [if_neg hf]
  · intro hf
    constructor
    · unfold SettingsINI.Load
      rw [if_neg hf]
      rcases fc with _ | c
      · rfl
      · rfl
    · intro p hp
      unfold SpreadsheetDelim.Load at hp
      rw [if_neg hf] at hp
      rcases fc with _ | c
      · simp only [Option.mem_def, Option.some.injEq] at hp
        rw [← hp]
      · simp only at hp
        rcases hq : loadRowsAux sd.delimeter sc sr (goLines c) 0 sd.Data with _ | r
        · rw [hq] at hp
          simp at hp
        · rw [hq] at hp
          simp only [Option.mem_def, Option.some.injEq] at hp
          rw [← hp]
  · intro hh
    unfold SettingsINI.Save
    rw [if_pos hh.1, if_pos hh.2]
  · intro hh
    unfold SettingsINI.Save
    rw [if_pos hh.1, if_neg hh.2]
  · intro hh
    unfold SpreadsheetDelim.Save
    rw [if_pos hh.1, if_pos hh.2]
  · intro hh
    unfold SpreadsheetDelim.Save
    rw [if_pos hh.1, if_neg hh.2]

/-- Counterexample for C5 as claimed: both stores start with no remembered
filename, a `Save` with the non-empty filename `"f"` succeeds, and a second
`Save` with the empty argument still fails with `ErrorTypeInvalidArgument` —
`Save` did not make `"f"` the remembered filename. -/
theorem C5_counterexample :
    ((NewSettingsINI 0).Save "f").2.2 = none ∧
    ((NewSettingsINI 0).Save "f").1.Filename = "" ∧
    ((((NewSettingsINI 0).Save "f").1).Save "").2.2 =
      some ⟨ErrorType.InvalidArgument, "SettingsINI",
        "Internal and argument filenames are empty"⟩ ∧
    ((NewSpreadsheetDelim 0 ",").Save "f").2.2 = none ∧
    ((NewSpreadsheetDelim 0 ",").Save "f").1.Filename = "" ∧
    ((((NewSpreadsheetDelim 0 ",").Save "f").1).Save "").2.2 =
      some ⟨ErrorType.InvalidArgument, "SpreadsheetDelim",
        "No filename specified to save"⟩ := by
  decide

/-- C2 (amended): a failed `SettingsINI.Load` does NOT leave the store empty. On an
unresolvable filename or a failure to open, the previous header map is kept
untouched (and in the latter case the filename argument was already recorded); on
a parse error, the header map holds the result of parsing some prefix of the
file's lines — the partially built store is exposed. -/
theorem C2_failed_load_partial (si : SettingsINI) (filename : String)
    (fc : Option String) (si' : SettingsINI) (e : Error)
    (h : si.Load filename fc = (si', some e)) :
    si'.Headers = si.Headers ∨ ∃ content nn, fc = some content ∧
      si'.Headers = (parseINI ((goLines content).take nn) [] none).1 := by
  unfold SettingsINI.Load at h
  by_cases h1 : goLen filename = 0
  · rw [if_pos h1] at h
    by_cases h2 : goLen si.Filename = 0
    · rw [if_pos h2] at h
      exact Or.inl (congrArg (fun p => p.1.Headers) h).symm
    · rw [if_neg h2] at h
      rcases fc with _ | content
      · exact Or.inl (congrArg (fun p => p.1.Headers) h).symm
      · right
        simp only at h
        rcases hp : parseINI (goLines content) [] none with ⟨hs2, err⟩
        rw [hp] at h
        have herr : err = some e := congrArg Prod.snd h
        have hh : si'.Headers = hs2 := (congrArg (fun p => p.1.Headers) h).symm
        subst herr
        obtain ⟨nn, hle, htake⟩ := parseINI_prefix (goLines content) [] none hs2 e hp
        exact ⟨content, nn, rfl, by rw [htake, hh]⟩
  · rw [if_neg h1] at h
    rcases fc with _ | content
    · simp only at h
      exact Or.inl (congrArg (fun p => p.1.Headers) h).symm
    · right
      simp only at h
      rcases hp : parseINI (goLines content) [] none with ⟨hs2, err⟩
      rw [hp] at h
      have herr : err = some e := congrArg Prod.snd h
      have hh : si'.Headers = hs2 := (congrArg (fun p => p.1.Headers) h).symm
      subst herr
      obtain ⟨nn, hle, htake⟩ := parseINI_prefix (goLines content) [] none hs2 e hp
      exact ⟨content, nn, rfl, by rw [htake, hh]⟩

/-- Witness for C2: the parse of `"x = 1\n[]\n"` fails on the empty header and
leaves the pair `x = 1` stored. -/
theorem C2_witness :
    (⟨0, "f", [("", [("x", "1")])]⟩ : SettingsINI).Headers =
      (NewSettingsINI 0).Headers ∨
    ∃ content nn, (some "x = 1\n[]\n" : Option String) = some content ∧
      (⟨0, "f", [("", [("x", "1")])]⟩ : SettingsINI).Headers =
        (parseINI ((goLines content).take nn) [] none).1 :=
  C2_failed_load_partial (NewSettingsINI 0) "f" (some "x = 1\n[]\n")
    ⟨0, "f", [("", [("x", "1")])]⟩
    ⟨ErrorType.Parsing, "SettingsINI", "No header name specified between brackets"⟩
    (by decide)

/-- Counterexample for C2 as claimed: this `Load` fails with a parse error, yet
afterwards the pair is observable — the store is not empty. -/
theorem C2_counterexample :
    ∃ si' e, (NewSettingsINI 0).Load "f" (some "x = 1\n[]\n") = (si', some e) ∧
      si'.Get "" "x" = ("1", true) ∧ si'.HeaderExists "" = true ∧
      si'.ValueExists "" "x" = true :=
  ⟨⟨0, "f", [("", [("x", "1")])]⟩,
    ⟨ErrorType.Parsing, "SettingsINI", "No header name specified between brackets"⟩,
    by decide⟩

/-- C10: after every successful `SettingsINI.Load`, every stored header name other
than the unnamed section's `""` is nonempty, and every stored key and every stored
value is a nonempty string fixed by whitespace trimming (it was produced by
trimming followed by a non-emptiness check). -/
theorem C10_load_invariant (si si' : SettingsINI) (filename : String)
    (fc : Option String) (h : si.Load filename fc = (si', none)) :
    ∀ p ∈ si'.Headers, (p.1 ≠ "" → goLen p.1 ≠ 0) ∧
      ∀ q ∈ p.2, goLen q.1 ≠ 0 ∧ goTrim q.1 = q.1 ∧ goLen q.2 ≠ 0 ∧ goTrim q.2 = q.2 := by
  have hmain : ∀ content : String,
      si'.Headers = (parseINI (goLines content) [] none).1 →
      ∀ p ∈ si'.Headers, (p.1 ≠ "" → goLen p.1 ≠ 0) ∧
        ∀ q ∈ p.2, goLen q.1 ≠ 0 ∧ goTrim q.1 = q.1 ∧ goLen q.2 ≠ 0 ∧
          goTrim q.2 = q.2 := by
    intro content hc p hp
    rw [hc] at hp
    have hg := goodHeaders_parseINI (goLines content) [] none goodHeaders_nil p hp
    exact ⟨hg.1, hg.2⟩
  unfold SettingsINI.Load at h
  by_cases h1 : goLen filename = 0
  · rw [if_pos h1] at h
    by_cases h2 : goLen si.Filename = 0
    · rw [if_pos h2] at h
      exact absurd (congrArg Prod.snd h) (by simp)
    · rw [if_neg h2] at h
      rcases fc with _ | content
      · exact absurd (congrArg Prod.snd h) (by simp)
      · simp only at h
        exact hmain content (congrArg (fun p => p.1.Headers) h).symm
  · rw [if_neg h1] at h
    rcases fc with _ | content
    · simp only at h
      exact absurd (congrArg Prod.snd h) (by simp)
    · simp only at h
      exact hmain content (congrArg (fun p => p.1.Headers) h).symm

/-- Witness for C10: loading `"[A]\n x = 1 \n"` stores the trimmed pair. -/
theorem C10_witness :
    (NewSettingsINI 0).Load "f" (some "[A]\n x = 1 \n") =
      ((⟨0, "f", [("A", [("x", "1")])]⟩ : SettingsINI), none) ∧
    ∀ p ∈ (⟨0, "f", [("A", [("x", "1")])]⟩ : SettingsINI).Headers,
      (p.1 ≠ "" → goLen p.1 ≠ 0) ∧
      ∀ q ∈ p.2, goLen q.1 ≠ 0 ∧ goTrim q.1 = q.1 ∧ goLen q.2 ≠ 0 ∧
        goTrim q.2 = q.2 :=
  ⟨by decide, C10_load_invariant (NewSettingsINI 0) ⟨0, "f", [("A", [("x", "1")])]⟩
    "f" (some "[A]\n x = 1 \n") (by decide)⟩

/-- C4 (amended): during `SettingsINI.Load`, a trimmed line that is non-empty, is
not a `//` comment and does not begin with `[` is parsed as a pair only when its
byte length is at least 2: a missing `=` fails with the `ErrorTypeParsing` error
`"Expected to find an equal-character"`, an empty trimmed key with
`"Value pair encountered without name"`, an empty trimmed value with
`"Value pair encountered without value"`. A trimmed line of byte length 1 is
SILENTLY SKIPPED (no `=` required), contrary to the claim's final sentence. -/
theorem C4_pair_line_errors (hs : List (String × Pairs)) (cur : Option String)
    (raw : String) (hne : goLen (goTrim raw) ≠ 0)
    (hcomment : ¬ (goTrim raw).data.take 2 = ['/', '/'])
    (hbr : ¬ (goTrim raw).data.head? = some '[') :
    (goLen (goTrim raw) = 1 → processINILine hs cur raw = Except.ok (hs, cur)) ∧
    (2 ≤ goLen (goTrim raw) →
      (idxEq (goTrim raw).data = none →
        processINILine hs cur raw = Except.error ⟨ErrorType.Parsing, "SettingsINI",
          "Expected to find an equal-character"⟩) ∧
      ∀ i, idxEq (goTrim raw).data = some i →
        (goLen (goTrim ⟨(goTrim raw).data.take i⟩) = 0 →
          processINILine hs cur raw = Except.error ⟨ErrorType.Parsing, "SettingsINI",
            "Value pair encountered without name"⟩) ∧
        (¬ goLen (goTrim ⟨(goTrim raw).data.take i⟩) = 0 →
          goLen (goTrim ⟨(goTrim raw).data.drop (i + 1)⟩) = 0 →
          processINILine hs cur raw = Except.error ⟨ErrorType.Parsing, "SettingsINI",
            "Value pair encountered without value"⟩)) := by
  constructor
  · intro h1
    simp only [processINILine]
    rw [if_neg hne, if_neg (by omega)]
  · intro h2
    have hred : processINILine hs cur raw =
        (match idxEq (goTrim raw).data with
         | none => Except.error ⟨ErrorType.Parsing, "SettingsINI",
             "Expected to find an equal-character"⟩
         | some i =>
           if goLen (goTrim ⟨(goTrim raw).data.take i⟩) = 0 then
             Except.error ⟨ErrorType.Parsing, "SettingsINI",
               "Value pair encountered without name"⟩
           else if goLen (goTrim ⟨(goTrim raw).data.drop (i + 1)⟩) = 0 then
             Except.error ⟨ErrorType.Parsing, "SettingsINI",
               "Value pair encountered without value"⟩
           else
             match cur with
             | none => Except.ok (mapAdjust (mapInsert hs "" []) ""
                 (goTrim ⟨(goTrim raw).data.take i⟩)
                 (goTrim ⟨(goTrim raw).data.drop (i + 1)⟩), some "")
             | some c => Except.ok (mapAdjust hs c
                 (goTrim ⟨(goTrim raw).data.take i⟩)
                 (goTrim ⟨(goTrim raw).data.drop (i + 1)⟩), some c)) := by
      simp only [processINILine]
      rw [if_neg hne, if_pos h2, if_neg hcomment, if_neg hbr]
    refine ⟨?_, ?_⟩
    · intro heq
      rw [hred, heq]
    · intro i heq
      refine ⟨?_, ?_⟩
      · intro hname
        rw [hred, heq]
        simp only
        rw [if_pos hname]
      · intro hname hval
        rw [hred, heq]
        simp only
        rw [if_neg hname, if_pos hval]

/-- Witness for C4: the trimmed line `"ab"` (length 2, no `=`). -/
theorem C4_witness :
    (goLen (goTrim "ab") = 1 → processINILine [] none "ab" = Except.ok ([], none)) ∧
    (2 ≤ goLen (goTrim "ab") →
      (idxEq (goTrim "ab").data = none →
        processINILine [] none "ab" = Except.error ⟨ErrorType.Parsing, "SettingsINI",
          "Expected to find an equal-character"⟩) ∧
      ∀ i, idxEq (goTrim "ab").data = some i →
        (goLen (goTrim ⟨(goTrim "ab").data.take i⟩) = 0 →
          processINILine [] none "ab" = Except.error ⟨ErrorType.Parsing, "SettingsINI",
            "Value pair encountered without name"⟩) ∧
        (¬ goLen (goTrim ⟨(goTrim "ab").data.take i⟩) = 0 →
          goLen (goTrim ⟨(goTrim "ab").data.drop (i + 1)⟩) = 0 →
          processINILine [] none "ab" = Except.error ⟨ErrorType.Parsing, "SettingsINI",
            "Value pair encountered without value"⟩)) :=
  C4_pair_line_errors [] none "ab" (by decide) (by decide) (by decide)

/-- Counterexample for C4's final sentence: the trimmed line `"x"` has byte length
1 and no `=`, yet it is silently skipped and the whole load succeeds. -/
theorem C4_counterexample :
    goLen (goTrim "x") = 1 ∧ idxEq (goTrim "x").data = none ∧
    processINILine [] none "x" = Except.ok ([], none) ∧
    (NewSettingsINI 0).Load "f" (some "x\n") = (⟨0, "f", []⟩, none) := by
  decide

/-- C1 (amended): the round-trip holds under the conditions serialization can
survive, for every buffer size. For the INI store the claim's "valid keys and
values" must mean: keys nonempty, trimmed, free of `\n` and `=`, not starting
with `[` or `//`; values nonempty, trimmed, `\n`-free; header arguments
`\n`-free (`BuiltINI`). For the table the claim's "arbitrary cells" must be
restricted (`SheetRTSafe`): a one-character delimiter that is not `\n`/`\r`,
no cell containing it or a newline, no empty row, no lone empty cell, and no
row whose last cell ends in `\r` — otherwise reloading changes `Get` (see the
counterexample). Under these conditions `Save` writes the serialization and a
fresh `Load` of it yields a store with the same `Get` results. -/
theorem C1_roundtrip (si : SettingsINI) (sd : SpreadsheetDelim) (b1 b2 : Int)
    (f1 f2 : String) (hsi : BuiltINI si) (hsd : SheetRTSafe sd)
    (hf1 : ¬ goLen f1 = 0) (hf2 : ¬ goLen f2 = 0) :
    (si.Save f1).2.1 = some (f1, saveStringINI si) ∧
    (∃ si2, (NewSettingsINI b1).Load f1 (some (saveStringINI si)) = (si2, none) ∧
      ∀ h n, si2.Get h n = si.Get h n) ∧
    (sd.Save f2).2.1 = some (f2, saveStringSheet sd) ∧
    (∃ sd2, (NewSpreadsheetDelim b2 sd.delimeter).Load f2 0 0
        (some (saveStringSheet sd)) = some (sd2, none) ∧
      ∀ r c : Int, sd2.Get r c = sd.Get r c) := by
  refine ⟨?_, ⟨⟨b1, f1, reparsedHeaders si⟩, ini_roundtrip si (BuiltINI_wf hsi) b1 f1 hf1,
      fun h n => Get_reparsed si b1 f1 h n⟩, ?_,
      ⟨⟨b2, f2, sd.delimeter, sd.Data⟩, sheet_roundtrip sd hsd b2 f2 hf2,
      fun r c => Get_congr rfl r c⟩⟩
  · unfold SettingsINI.Save
    rw [if_neg hf1]
  · unfold SpreadsheetDelim.Save
    rw [if_neg hf2]

/-- Witness for C1: an INI store holding `[A] x = 1` and a table holding the row
`a,b`, each saved and reloaded. -/
theorem C1_witness :
    ((⟨3, "", [("A", [("x", "1")])]⟩ : SettingsINI).Save "f").2.1 =
      some ("f", saveStringINI ⟨3, "", [("A", [("x", "1")])]⟩) ∧
    (∃ si2, (NewSettingsINI 5).Load "f"
        (some (saveStringINI ⟨3, "", [("A", [("x", "1")])]⟩)) = (si2, none) ∧
      ∀ h n, si2.Get h n = SettingsINI.Get ⟨3, "", [("A", [("x", "1")])]⟩ h n) ∧
    ((⟨4, "", ",", [["a", "b"]]⟩ : SpreadsheetDelim).Save "g").2.1 =
      some ("g", saveStringSheet ⟨4, "", ",", [["a", "b"]]⟩) ∧
    (∃ sd2, (NewSpreadsheetDelim 6 (⟨4, "", ",", [["a", "b"]]⟩ :
          SpreadsheetDelim).delimeter).Load "g" 0 0
        (some (saveStringSheet ⟨4, "", ",", [["a", "b"]]⟩)) = some (sd2, none) ∧
      ∀ r c : Int, sd2.Get r c = SpreadsheetDelim.Get ⟨4, "", ",", [["a", "b"]]⟩ r c) :=
  C1_roundtrip ⟨3, "", [("A", [("x", "1")])]⟩ ⟨4, "", ",", [["a", "b"]]⟩ 5 6 "f" "g"
    (BuiltINI.add (NewSettingsINI 3) "A" "x" "1" (BuiltINI.new 3)
      (by show ('\n' ∉ ("A" : String).data); decide)
      ⟨by decide, by decide, by decide, by decide, by decide, by decide⟩
      ⟨by decide, by decide, by decide⟩)
    ⟨',', rfl, by decide, by decide, fun row hrow => by
      rw [List.mem_singleton] at hrow
      subst hrow
      refine ⟨?_, by decide, ?_, ?_⟩
      · intro s hs
        rcases List.mem_cons.mp hs with h | h
        · subst h
          exact ⟨by decide, by decide⟩
        · rw [List.mem_singleton] at h
          subst h
          exact ⟨by decide, by decide⟩
      · intro x hx
        simp at hx
      · intro s hsx
        have hsb : s = "b" := by
          have h2 : (["a", "b"] : List String).getLast? = some "b" := rfl
          rw [h2] at hsx
          exact (Option.some.inj hsx).symm
        subst hsb
        decide⟩
    (by decide) (by decide)

/-- Counterexample for C1 as claimed for "arbitrary rows/cells": `Set 1 0 "a"` on
a fresh table creates the empty row 0; saving writes it as a bare newline, which
a reload skips, so the reloaded table answers `Get 1 0` differently. -/
theorem C1_counterexample :
    ∃ sd sd2 content,
      SpreadsheetDelim.Set (NewSpreadsheetDelim 0 ",") 1 0 "a" = some sd ∧
      sd.Save "f" = (sd, some ("f", content), none) ∧
      (NewSpreadsheetDelim 0 ",").Load "f" 0 0 (some content) = some (sd2, none) ∧
      sd.Get 1 0 = some ("a", true) ∧ sd2.Get 1 0 = some ("", false) :=
  ⟨⟨0, "", ",", [[], ["a"]]⟩, ⟨0, "f", ",", [["a"]]⟩, "\na\n", by decide⟩

end Fio
